import Mathlib

/-!
Verification development for `scripts/create_cve_report_from_json.gmp.py`
(gvm-tools).  The script is embedded shallowly: Python strings become
`List Char`, Python dicts become insertion-ordered association lists,
`lxml` element trees become a simple inductive tree, fallible Python
operations (indexing, dict access, uncaught exceptions, `error_and_exit`)
become an `Except` monad, and the external GMP client is a parameter.
-/

set_option maxHeartbeats 1000000
set_option maxRecDepth 100000

/-- Python strings, modelled as lists of characters. -/
abbrev Str := List Char

/-- The single-quote character, used by `strip("'")` in the script. -/
def squote : Char := Char.ofNat 39

/-- The ways the script can terminate abnormally: uncaught Python
exceptions (IndexError, TypeError, KeyError, ValueError from bad CPE
strings, a json.JSONDecodeError carrying a message) and the
`error_and_exit` helper, which prints its message and exits. -/
inductive Err where
  | indexError
  | typeError
  | keyError
  | valueError
  | jsonDecodeError (msg : Str)
  | exitWith (msg : Str)
deriving Repr, DecidableEq

/-- Modelled from the spec: `error_and_exit` (imported from
`gvmtools.helper`, not part of the sources here) prints the given message
and terminates the process immediately. -/
def error_and_exit {α : Type} (msg : Str) : Except Err α :=
  Except.error (Err.exitWith msg)

/-- Python list/tuple indexing `xs[i]`: IndexError when out of range. -/
def pyIndex {α : Type} (xs : List α) (i : Nat) : Except Err α :=
  match xs[i]? with
  | some v => Except.ok v
  | none => Except.error Err.indexError

/-- Python dicts with string keys, as insertion-ordered association
lists with pairwise-distinct keys (maintained by `dictInsert`). -/
abbrev Dict (α : Type) := List (Str × α)

/-- Python `d[k] = v`: overwrite the value in place when the key is
present, append a new binding otherwise. -/
def dictInsert {α : Type} (k : Str) (v : α) (d : Dict α) : Dict α :=
  if d.any (fun p => decide (p.1 = k)) then
    d.map (fun p => if p.1 = k then (k, v) else p)
  else
    d ++ [(k, v)]

/-- Python `d.get(k)` / `k in d` combined: the value bound to `k`. -/
def dictGet {α : Type} (k : Str) (d : Dict α) : Option α :=
  (d.find? (fun p => decide (p.1 = k))).map (fun p => p.2)

/-- Number of bindings a dict holds for a key (1 for a real dict). -/
def dictCount {α : Type} (k : Str) (d : Dict α) : Nat :=
  d.countP (fun p => decide (p.1 = k))

/-- Update the value bound to `k` in place (no-op when absent; in the
script the key is always present at the call sites). -/
def dictUpdate {α : Type} (k : Str) (f : α → α) (d : Dict α) : Dict α :=
  d.map (fun p => if p.1 = k then (p.1, f p.2) else p)

/-- Python `s.strip("'")`: drop single quotes from both ends. -/
def stripQuotes (s : Str) : Str :=
  ((s.dropWhile (fun c => decide (c = squote))).reverse.dropWhile
    (fun c => decide (c = squote))).reverse

/-- Python `needle in hay` on strings: substring containment. -/
def strIn (needle hay : Str) : Bool := decide (needle <:+: hay)

/-- One parsed CSV line. -/
abbrev Row := List Str

/-- State of the `CPELookup` object: the parsed CSV table backing
`self.reader` and the current read position of `self.file` (a row
index; `csv.reader` consumes the file lazily, so after `seek(0)` a new
iteration over the reader starts from the first row again). -/
structure CPELookup where
  table : List Row
  pos : Nat
deriving Repr, DecidableEq

/-- Source `CPELookup.__init__` (lines 46-56): open the CSV list file,
or print an explanatory message and exit when it does not exist.  The
file system is modelled by the optional content argument. -/
def CPELookup.init (filename : Str) (content : Option (List Row)) :
    Except Err CPELookup :=
  match content with
  | some rows => Except.ok { table := rows, pos := 0 }
  | none =>
      error_and_exit
        ("There is no file \"".data ++ filename ++
         "\". Maybe you need to create a list first. Run with argument \"++create-list +f ".data ++
         filename ++
         "\", to create a new list, or pass the correct location of an existing list.".data)

section GetCves

variable {σ : Type}

/-- Body of the inner loop of `get_cves` (lines 67-70), for one CSV row:
for each queried CPE, if it occurs in the row's first column, store the
quote-stripped second column as CVE id and the parsed third column as
score.  `pyFloat` stands for Python's `float` parse, a stdlib function
external to the script. -/
def cveRowStep (pyFloat : Str → σ) (cpes : List Str)
    (vulns : Dict (Dict σ)) (row : Row) : Except Err (Dict (Dict σ)) :=
  cpes.foldlM
    (fun v cpe => do
      let c0 ← pyIndex row 0
      if strIn cpe c0 then do
        let c1 ← pyIndex row 1
        let c2 ← pyIndex row 2
        pure (dictUpdate cpe
          (dictInsert (stripQuotes c1) (pyFloat (stripQuotes c2))) v)
      else
        pure v)
    vulns

/-- Source `CPELookup.get_cves` (lines 58-75): initialise an empty inner
dict for every queried CPE, scan the remaining CSV rows accumulating
matches, then `seek(0)` the file.  The prints and timing are side
effects without data flow and are not modelled. -/
def CPELookup.get_cves (pyFloat : Str → σ) (L : CPELookup)
    (cpes : List Str) : Except Err (Dict (Dict σ) × CPELookup) := do
  let init : Dict (Dict σ) :=
    cpes.foldl (fun d cpe => dictInsert cpe [] d) []
  let vulns ← (L.table.drop L.pos).foldlM (cveRowStep pyFloat cpes) init
  pure (vulns, { L with pos := 0 })

/-- Total column access used by the pure rephrasing of `get_cves`
(meaningful on rows with enough columns). -/
def col (row : Row) (i : Nat) : Str := row.getD i []

/-- Whether a CSV row matches a queried CPE: the CPE string occurs in
the row's first column. -/
def rowMatches (cpe : Str) (row : Row) : Bool := strIn cpe (col row 0)

/-- Pure rephrasing of the per-row step, used for reasoning; it agrees
with `cveRowStep` on rows with at least three columns. -/
def cveRowStepP (pyFloat : Str → σ) (cpes : List Str)
    (vulns : Dict (Dict σ)) (row : Row) : Dict (Dict σ) :=
  cpes.foldl
    (fun v cpe =>
      if rowMatches cpe row then
        dictUpdate cpe
          (dictInsert (stripQuotes (col row 1)) (pyFloat (stripQuotes (col row 2)))) v
      else v)
    vulns

/-- Pure rephrasing of the whole scan of `get_cves`. -/
def get_cvesP (pyFloat : Str → σ) (table : List Row) (cpes : List Str) :
    Dict (Dict σ) :=
  table.foldl (cveRowStepP pyFloat cpes)
    (cpes.foldl (fun d cpe => dictInsert cpe [] d) [])

/-- The inner dict accumulated for one CPE over a table, starting from a
given inner dict. -/
def innerScan (pyFloat : Str → σ) (cpe : Str) (table : List Row)
    (d : Dict σ) : Dict σ :=
  table.foldl
    (fun d row =>
      if rowMatches cpe row then
        dictInsert (stripQuotes (col row 1)) (pyFloat (stripQuotes (col row 2))) d
      else d)
    d

/-- The rows of a table whose first column contains the CPE and whose
quote-stripped second column is the given CVE id. -/
def matchingCveRows (table : List Row) (cpe cve : Str) : List Row :=
  table.filter (fun row =>
    rowMatches cpe row && decide (stripQuotes (col row 1) = cve))

/-- Score taken from the last row of the table matching the CPE and
naming the CVE, in file order. -/
def lastScoreFor (pyFloat : Str → σ) (table : List Row) (cpe cve : Str) :
    Option σ :=
  (matchingCveRows table cpe cve).getLast?.map
    (fun row => pyFloat (stripQuotes (col row 2)))

end GetCves

section CpeModel

/-- Modelled from the spec: the script delegates CPE parsing and
conversion to the external cpe library (an external dependency, not
part of these sources).  A CPE v2.3 name has eleven attributes; the
string "*" is the ANY value. -/
structure Cpe23 where
  part : Str
  vendor : Str
  product : Str
  version : Str
  update : Str
  edition : Str
  language : Str
  sw_edition : Str
  target_sw : Str
  target_hw : Str
  other : Str
deriving Repr, DecidableEq

/-- The eleven attribute values in formatted-string order. -/
def Cpe23.fields (r : Cpe23) : List Str :=
  [r.part, r.vendor, r.product, r.version, r.update, r.edition, r.language,
   r.sw_edition, r.target_sw, r.target_hw, r.other]

/-- A simple attribute value: nonempty, without colon or tilde (escaped
and special characters are outside this model). -/
def wfField (f : Str) : Bool :=
  !f.isEmpty && !(f.contains ':') && !(f.contains '~')

/-- All eleven attribute values are simple. -/
def wf23 (r : Cpe23) : Bool := r.fields.all wfField

/-- Modelled from the spec: the formatted CPE v2.3 string of a name. -/
def cpe23_str (r : Cpe23) : Str :=
  List.intercalate [':'] ("cpe".data :: "2.3".data :: r.fields)

/-- In the v2.2 URI binding the ANY value becomes an empty component. -/
def field22 (f : Str) : Str := if f = "*".data then [] else f

/-- Reading a URI component back: empty means ANY. -/
def unpackF (g : Str) : Str := if g = [] then "*".data else g

/-- Whether the four extended attributes are all ANY. -/
def extAllAny (r : Cpe23) : Bool :=
  decide (r.sw_edition = "*".data) && decide (r.target_sw = "*".data) &&
    decide (r.target_hw = "*".data) && decide (r.other = "*".data)

/-- The edition URI component: the plain edition when no extended
attribute is set, otherwise the tilde-packed form carrying them. -/
def ed22 (r : Cpe23) : Str :=
  if extAllAny r then field22 r.edition
  else
    '~' :: List.intercalate ['~']
      [field22 r.edition, field22 r.sw_edition, field22 r.target_sw,
       field22 r.target_hw, field22 r.other]

/-- The seven URI components before trailing-empty trimming. -/
def comps22 (r : Cpe23) : List Str :=
  [field22 r.part, field22 r.vendor, field22 r.product, field22 r.version,
   field22 r.update, ed22 r, field22 r.language]

/-- Drop trailing empty components, as the URI binding does. -/
def trimTrailing (l : List Str) : List Str :=
  (l.reverse.dropWhile (fun s => s.isEmpty)).reverse

/-- Modelled from the spec: the CPE v2.2 URI string of a name. -/
def cpe22_str (r : Cpe23) : Str :=
  "cpe:/".data ++ List.intercalate [':'] (trimTrailing (comps22 r))

/-- The colon-separated components of a formatted CPE v2.3 string:
the fixed "cpe" and "2.3" heads followed by the eleven attributes. -/
def parse23Parts : List Str → Option Cpe23
  | c :: v :: fs =>
    if c = "cpe".data ∧ v = "2.3".data then
      match fs with
      | [p, vd, pr, vr, up, ed, lg, se, ts, th, ot] =>
        if [p, vd, pr, vr, up, ed, lg, se, ts, th, ot].all wfField then
          some ⟨p, vd, pr, vr, up, ed, lg, se, ts, th, ot⟩
        else none
      | _ => none
    else none
  | _ => none

/-- Modelled from the spec: parsing a formatted CPE v2.3 string. -/
def parse23 (s : Str) : Option Cpe23 := parse23Parts (s.splitOn ':')

/-- Unpack a URI edition component (tilde-packed or plain). -/
def unpackEd (ed : Str) : Option (Str × Str × Str × Str × Str) :=
  match ed with
  | c :: rest =>
    if c = '~' then
      match rest.splitOn '~' with
      | [e, se, ts, th, ot] =>
        some (unpackF e, unpackF se, unpackF ts, unpackF th, unpackF ot)
      | _ => none
    else
      some (unpackF (c :: rest), "*".data, "*".data, "*".data, "*".data)
  | [] => some (unpackF [], "*".data, "*".data, "*".data, "*".data)

/-- The colon-separated components of a CPE v2.2 URI: the "cpe" head,
then the part attribute carrying the leading slash, then the rest. -/
def parse22Parts : List Str → Option Cpe23
  | c :: (sl :: p0) :: rest =>
    if c = "cpe".data ∧ sl = '/' then
      let comps := p0 :: rest
      if comps.length ≤ 7 then
        match comps ++ List.replicate (7 - comps.length) [] with
        | [p, vd, pr, vr, up, ed, lg] =>
          match unpackEd ed with
          | some (e, se, ts, th, ot) =>
            some ⟨unpackF p, unpackF vd, unpackF pr, unpackF vr,
              unpackF up, e, unpackF lg, se, ts, th, ot⟩
          | none => none
        | _ => none
      else none
    else none
  | _ => none

/-- Modelled from the spec: parsing a CPE v2.2 URI string back into a
v2.3 name, padding missing trailing components with ANY. -/
def parse22 (s : Str) : Option Cpe23 := parse22Parts (s.splitOn ':')

/-- Source convert_cpe23_to_cpe22 (lines 320-333): parse the CPE v2.3
string and return its v2.2 URI string together with the flag telling
whether no product version is given (version attribute ANY).  The cpe
library the source calls is modelled from the spec; a malformed CPE
string makes the library raise, which the Option models. -/
def convert_cpe23_to_cpe22 (s : Str) : Option (Str × Bool) :=
  (parse23 s).map (fun r => (cpe22_str r, decide (r.version = "*".data)))

/-- Modelled from the spec: converting the produced CPE v2.2 string
back to a CPE v2.3 identifier, the round-trip direction the spec
requires for version-bearing inputs. -/
def convert_cpe22_to_cpe23 (s : Str) : Option Str :=
  (parse22 s).map cpe23_str

end CpeModel

section XmlModel

/-- An lxml element: tag, attributes, text and children. -/
inductive Elem where
  | mk (tag : Str) (attrs : List (Str × Str)) (text : Option Str)
      (children : List Elem)

/-- Tag of an element. -/
def Elem.tag : Elem → Str
  | .mk t _ _ _ => t

/-- Attributes of an element. -/
def Elem.attrs : Elem → List (Str × Str)
  | .mk _ a _ _ => a

/-- Text of an element. -/
def Elem.text : Elem → Option Str
  | .mk _ _ x _ => x

/-- Children of an element. -/
def Elem.children : Elem → List Elem
  | .mk _ _ _ c => c

/-- Value of an attribute of an element. -/
def attrVal (el : Elem) (k : Str) : Option Str :=
  (el.attrs.find? (fun p => decide (p.1 = k))).map (fun p => p.2)

mutual
/-- e.tostring: serialize an element. -/
def Elem.tostring : Elem → Str
  | .mk tag attrs text children =>
      '<' :: tag ++
      (attrs.map (fun p => ' ' :: p.1 ++ '=' :: '"' :: p.2 ++ ['"'])).flatten ++
      ['>'] ++ text.getD [] ++ Elem.tostringList children ++
      '<' :: '/' :: tag ++ ['>']

/-- Serialize a list of elements in order. -/
def Elem.tostringList : List Elem → Str
  | [] => []
  | c :: cs => Elem.tostring c ++ Elem.tostringList cs
end

mutual
/-- The values of attributes named id, in document order; the script
reads res.xpath of all id attributes and takes the first. -/
def Elem.idAttrs : Elem → List Str
  | .mk _ attrs _ children =>
      (attrs.filter (fun p => decide (p.1 = "id".data))).map (fun p => p.2) ++
      Elem.idAttrsList children

/-- The id attributes of a list of elements in order. -/
def Elem.idAttrsList : List Elem → List Str
  | [] => []
  | c :: cs => Elem.idAttrs c ++ Elem.idAttrsList cs
end

/-- Modelled from the spec: generate_uuid from gvmtools.helper returns
a fresh unique id each call; modelled by a counter rendered into the id
string. -/
def generate_uuid (n : Nat) : Str × Nat :=
  ("id-".data ++ Nat.toDigits 10 n, n + 1)

/-- Source generate_host_detail_elem (lines 143-158): a detail element
with name and value children and an optional source child holding the
source name, an optional type and an optional description. -/
def generate_host_detail_elem (name value : Str) (source_name : Option Str)
    (source_description : Option Str) (source_type : Option Str) : Elem :=
  let base := [Elem.mk "name".data [] (some name) [],
               Elem.mk "value".data [] (some value) []]
  match source_name with
  | none => Elem.mk "detail".data [] none base
  | some sn =>
      let sourceChildren :=
        [Elem.mk "name".data [] (some sn) []] ++
        (match source_type with
         | some st => [Elem.mk "type".data [] (some st) []]
         | none => []) ++
        (match source_description with
         | some sd => [Elem.mk "description".data [] (some sd) []]
         | none => [])
      Elem.mk "detail".data [] none
        (base ++ [Elem.mk "source".data [] none sourceChildren])

/-- One result element built by Report.add_results (lines 259-305).
The detection element of lines 268-272 is built but never attached to
the result, so it leaves no trace in the tree. -/
def mkResult (ip hostname dt result_id cve cvssS : Str) : Elem :=
  Elem.mk "result".data [("id".data, result_id)] none
    [Elem.mk "name".data [] (some ("Result for host ".data ++ ip)) [],
     Elem.mk "comment".data [] (some "Imported with gvm-tools".data) [],
     Elem.mk "modification_time".data [] (some dt) [],
     Elem.mk "creation_time".data [] (some dt) [],
     Elem.mk "host".data [] (some ip)
       [Elem.mk "hostname".data [] (some hostname) []],
     Elem.mk "nvt".data [("oid".data, cve)] none
       [Elem.mk "type".data [] (some "cve".data) [],
        Elem.mk "name".data [] (some cve) [],
        Elem.mk "cvss_base".data [] (some cvssS) [],
        Elem.mk "cve".data [] (some cve) []],
     Elem.mk "severity".data [] (some cvssS) []]

/-- The report being built: children of self.results and self.hosts. -/
structure ReportState where
  results : List Elem
  hosts : List Elem

/-- Source Report.add_results (lines 218-307): build the host element
with its ip and three detail children, then for every queried CPE whose
CVE dict is non-empty append one App detail per CVE to the host and one
result element per CVE to the results.  scoreStr is Python str on the
score values. -/
def Report.add_results {σ : Type} (scoreStr : σ → Str) (rs : ReportState)
    (ip hostname : Str) (cpes : Dict (Dict σ)) (cpeo os : Str)
    (date_time : Str) (uuid : Nat) : ReportState × Nat :=
  let (_host_id, uuid1) := generate_uuid uuid
  let source_name := "gvm-tools".data
  let dt := date_time ++ "+01:00".data
  let baseChildren : List Elem :=
    [Elem.mk "ip".data [] (some ip) [],
     generate_host_detail_elem "hostname".data hostname (some source_name)
       none none,
     generate_host_detail_elem "best_os_txt".data os (some source_name)
       (some "Host Details".data) none,
     generate_host_detail_elem "best_os_cpe".data cpeo (some source_name)
       (some "Host Details".data) none]
  let acc0 : List Elem × List Elem × Nat := ([], [], uuid1)
  let accN :=
    cpes.foldl (fun acc p =>
      if p.2.isEmpty then acc
      else
        p.2.foldl (fun acc q =>
          let (details, results, u) := acc
          let (result_id, u1) := generate_uuid u
          (details ++ [generate_host_detail_elem "App".data p.1 (some q.1)
              (some "CVE Scanner".data) (some "cve".data)],
           results ++ [mkResult ip hostname dt result_id q.1 (scoreStr q.2)],
           u1)) acc) acc0
  ({ results := rs.results ++ accN.2.1,
     hosts := rs.hosts ++
       [Elem.mk "host".data [] none (baseChildren ++ accN.1)] },
   accN.2.2)

/-- Source Report.finish_report (lines 169-199).  In the source,
e.SubElement already makes ports the sole child of the inner report and
the following inner_report.append of the same ports element moves that
node (lxml append relocates an element already in the tree), so the
inner report's children are ports, results, then the host elements. -/
def Report.finish_report (rs : ReportState) (uuid : Nat) : Elem × Nat :=
  let report_format_id := "d5da9f67-8551-4e51-807b-b6a873d70e34".data
  let (report_id, uuid1) := generate_uuid uuid
  let owner := Elem.mk "owner".data [] none
    [Elem.mk "name".data [] (some []) []]
  let nameE := Elem.mk "name".data []
    (some "Report created from JSON-File".data) []
  let ports := Elem.mk "ports".data
    [("start".data, "1".data), ("max".data, "-1".data)] none []
  let resultsElem := Elem.mk "results".data
    [("start".data, "1".data), ("max".data, "-1".data)] none rs.results
  let inner := Elem.mk "report".data [("id".data, report_id)] none
    ([ports, resultsElem] ++ rs.hosts)
  (Elem.mk "report".data
    [("id".data, report_id), ("format_id".data, report_format_id),
     ("extension".data, "xml".data), ("content_type".data, "text/xml".data)]
    none [owner, nameE, inner], uuid1)

/-- A call to the external GMP client. -/
inductive GmpCall where
  | create_container_task (name comment : Str)
  | import_report (report : Str) (task_id : Str) (in_assets : Bool)

/-- Source Report.send_report (lines 201-216): create a container task
named after the timestamp, read the first id attribute of the response,
then import the serialized report into that task, and return the first
id attribute of the second response.  The external client is the
respond parameter. -/
def Report.send_report (finished : Elem) (the_time : Str)
    (respond : GmpCall → Elem) : Except Err (List GmpCall × Str) := do
  let task_name := "CVE_Scan_Report_".data ++ the_time
  let call1 := GmpCall.create_container_task task_name
    "Created with gvm-tools.".data
  let res1 := respond call1
  let task_id ← pyIndex (Elem.idAttrs res1) 0
  let report := Elem.tostring finished
  let call2 := GmpCall.import_report report task_id true
  let res2 := respond call2
  let rid ← pyIndex (Elem.idAttrs res2) 0
  pure ([call1, call2], rid)

/-- The report-format requirements the claim states: a report element
carrying id, format_id, extension and content_type attributes,
containing an owner element, a name element, and an inner report
element with the same id that contains a ports element, the results
element, and one host element per added host.  Written from the
claim's words, to be compared with what finish_report builds. -/
def reportSchemaSpec (rep : Elem) (numHosts : Nat) : Prop :=
  rep.tag = "report".data ∧
  (attrVal rep "id".data).isSome = true ∧
  (attrVal rep "format_id".data).isSome = true ∧
  (attrVal rep "extension".data).isSome = true ∧
  (attrVal rep "content_type".data).isSome = true ∧
  (∃ o ∈ rep.children, Elem.tag o = "owner".data) ∧
  (∃ n ∈ rep.children, Elem.tag n = "name".data) ∧
  (∃ inner ∈ rep.children, Elem.tag inner = "report".data ∧
    attrVal inner "id".data = attrVal rep "id".data ∧
    (∃ p ∈ Elem.children inner, Elem.tag p = "ports".data) ∧
    (∃ res ∈ Elem.children inner, Elem.tag res = "results".data) ∧
    ((Elem.children inner).countP
      (fun c => decide (Elem.tag c = "host".data)) = numHosts))

end XmlModel

section PyModel

/-- A Python value as loaded from JSON (floats are outside the model;
numbers appear as integers). -/
inductive PyVal where
  | none
  | pstr (s : Str)
  | num (n : Int)
  | bool (b : Bool)
  | list (xs : List PyVal)
  | obj (fields : List (Str × PyVal))

/-- Python is-None test. -/
def PyVal.isNone : PyVal → Bool
  | .none => true
  | _ => false

/-- Python truthiness of the values the script branches on. -/
def pyTruthy : PyVal → Bool
  | .none => false
  | .pstr s => !s.isEmpty
  | .num n => decide (n ≠ 0)
  | .bool b => b
  | .list xs => !xs.isEmpty
  | .obj fs => !fs.isEmpty

/-- Using a value where a str is required (lxml text, CPE(...)):
TypeError otherwise. -/
def pyStr : PyVal → Except Err Str
  | .pstr s => Except.ok s
  | _ => Except.error Err.typeError

/-- Python subscripting v[i] with an integer index (a string yields the
one-character string; non-subscriptable values raise TypeError). -/
def pyValIndex : PyVal → Nat → Except Err PyVal
  | .list xs, i => pyIndex xs i
  | .pstr s, i => (pyIndex s i).map (fun c => PyVal.pstr [c])
  | _, _ => Except.error Err.typeError

/-- Python subscripting v[k] with a string key. -/
def pyField : PyVal → Str → Except Err PyVal
  | .obj fs, k =>
      (match fs.find? (fun p => decide (p.1 = k)) with
       | some p => Except.ok p.2
       | none => Except.error Err.keyError)
  | _, _ => Except.error Err.typeError

/-- Iterating a Python value: a list yields its elements, a string its
characters, a dict its keys; anything else raises TypeError. -/
def pyIter : PyVal → Except Err (List PyVal)
  | .list xs => Except.ok xs
  | .pstr s => Except.ok (s.map (fun c => PyVal.pstr [c]))
  | .obj fs => Except.ok (fs.map (fun p => PyVal.pstr p.1))
  | _ => Except.error Err.typeError

/-- The ips value (lines 456-457): a single string becomes a
one-element list, anything else is iterated. -/
def pyIps : PyVal → Except Err (List PyVal)
  | .pstr s => Except.ok [PyVal.pstr s]
  | v => pyIter v

/-- Source get_cpe (lines 388-407): convert the CPE; when it carries a
version return it alone, otherwise query the server for all CPEs with
that prefix filter and keep the ids of all but the last info element.
getInfoIds models gmp.get_info_list as the list of id attributes of the
info elements of its response. -/
def get_cpe (getInfoIds : Str → List Str) (cpe : Str) :
    Except Err (List Str) := do
  let c ← (match convert_cpe23_to_cpe22 cpe with
    | some c => Except.ok c
    | none => Except.error Err.valueError)
  if c.2 = false then
    pure [c.1]
  else
    pure (getInfoIds ("rows=-1 uuid~\"".data ++ c.1 ++ ":\"".data)).dropLast

/-- The cpes list computed for one host entry (lines 438-451): nothing
for None, get_cpe for a single string, otherwise iterate and resolve
each truthy element. -/
def resolveCpes (getInfoIds : Str → List Str) (e7 : PyVal) :
    Except Err (List Str) :=
  match e7 with
  | .none => Except.ok []
  | .pstr s => get_cpe getInfoIds s
  | v => do
      let items ← pyIter v
      items.foldlM (fun acc x =>
        if pyTruthy x then do
          let s ← pyStr x
          let cs ← get_cpe getInfoIds s
          pure (acc ++ cs)
        else pure acc) []

/-- State threaded through parse_json: the CSV lookup, the uuid counter
and the report being built. -/
structure PJState (σ : Type) where
  lookup : CPELookup
  uuid : Nat
  report : ReportState

/-- Source parse_json, the body of the host loop for one entry (lines
425-466): reject a missing OS, read the positional fields, resolve the
CPEs, look up their CVEs, and when any CPE was found add one host with
its results per IP. -/
def processEntry {σ : Type} (pyFloat : Str → σ) (scoreStr : σ → Str)
    (getInfoIds : Str → List Str) (date_time : Str)
    (st : PJState σ) (entry : PyVal) : Except Err (PJState σ) := do
  let e3 ← pyValIndex entry 3
  if e3.isNone then
    error_and_exit "The JSON format is not correct.".data
  else do
    let name ← pyValIndex entry 0
    let ips ← pyValIndex entry 1
    let _ip_range ← pyValIndex entry 2
    let os := e3
    let e4 ← pyValIndex entry 4
    let s4 ← pyStr e4
    let os_cpe ← (match convert_cpe23_to_cpe22 s4 with
      | some c => Except.ok c.1
      | none => Except.error Err.valueError)
    let e7 ← pyValIndex entry 7
    let cpes ← resolveCpes getInfoIds e7
    let vl ← CPELookup.get_cves pyFloat st.lookup cpes
    let st1 : PJState σ := { st with lookup := vl.2 }
    if vl.1.isEmpty then
      pure st1
    else do
      let ipl ← pyIps ips
      ipl.foldlM (fun s ip => do
        let ipS ← pyStr ip
        let nameS ← pyStr name
        let osS ← pyStr os
        let ru := Report.add_results scoreStr s.report ipS nameS vl.1
          os_cpe osS date_time s.uuid
        pure { s with uuid := ru.2, report := ru.1 }) st1

/-- The host loop of parse_json over all entries. -/
def processEntries {σ : Type} (pyFloat : Str → σ) (scoreStr : σ → Str)
    (getInfoIds : Str → List Str) (date_time : Str)
    (st : PJState σ) (entries : List PyVal) : Except Err (PJState σ) :=
  entries.foldlM (processEntry pyFloat scoreStr getInfoIds date_time) st

/-- Source parse_json (lines 410-470): loop over the host dump building
the report, then finish and send it. -/
def parse_json {σ : Type} (pyFloat : Str → σ) (scoreStr : σ → Str)
    (getInfoIds : Str → List Str) (respond : GmpCall → Elem)
    (date_time the_time : Str) (hosts_dump : PyVal)
    (cpe_list : CPELookup) : Except Err (Elem × List GmpCall × Str) := do
  let entries ← pyIter hosts_dump
  let st ← processEntries pyFloat scoreStr getInfoIds date_time
    { lookup := cpe_list, uuid := 0, report := { results := [], hosts := [] } }
    entries
  let fin := Report.finish_report st.report st.uuid
  let sent ← Report.send_report fin.1 the_time respond
  pure (fin.1, sent.1, sent.2)

/-- json.load(fp)[0]["results"], as read by main (line 490). -/
def loadResults (doc : PyVal) : Except Err PyVal := do
  let first ← pyValIndex doc 0
  pyField first "results".data

/-- Source main, json-file branch (lines 486-490): build the CPELookup
from the list file, load the JSON document (the load outcome is the
jsonLoad parameter; json.load raises on malformed input, uncaught),
read the first element's results field and run parse_json.  The
++create-list branch drives only the ListGenerator and no claim touches
it. -/
def main_json_branch {σ : Type} (pyFloat : Str → σ) (scoreStr : σ → Str)
    (getInfoIds : Str → List Str) (respond : GmpCall → Elem)
    (date_time the_time : Str) (list_filename : Str)
    (listContent : Option (List Row)) (jsonLoad : Except Str PyVal) :
    Except Err (Elem × List GmpCall × Str) := do
  let cpe_list ← CPELookup.init list_filename listContent
  let doc ← (match jsonLoad with
    | .ok v => Except.ok v
    | .error m => Except.error (Err.jsonDecodeError m))
  let dump ← loadResults doc
  parse_json pyFloat scoreStr getInfoIds respond date_time the_time dump
    cpe_list

end PyModel

/-- The host element add_results builds for a host none of whose CPEs
matched a CVE: the ip child plus the hostname, best_os_txt and
best_os_cpe details, and no App detail. -/
def baseHostElem (ip hostname os cpeo : Str) : Elem :=
  Elem.mk "host".data [] none
    [Elem.mk "ip".data [] (some ip) [],
     generate_host_detail_elem "hostname".data hostname
       (some "gvm-tools".data) none none,
     generate_host_detail_elem "best_os_txt".data os
       (some "gvm-tools".data) (some "Host Details".data) none,
     generate_host_detail_elem "best_os_cpe".data cpeo
       (some "gvm-tools".data) (some "Host Details".data) none]

section DictLemmas

variable {α : Type}

theorem dictGet_nil (c : Str) : dictGet c ([] : Dict α) = none := rfl

theorem dictGet_cons (c : Str) (p : Str × α) (d : Dict α) :
    dictGet c (p :: d) = if p.1 = c then some p.2 else dictGet c d := by
  by_cases h : p.1 = c <;> simp [dictGet, List.find?_cons, h]

theorem dictGet_append (c : Str) (d₁ d₂ : Dict α) :
    dictGet c (d₁ ++ d₂) =
      match dictGet c d₁ with
      | some w => some w
      | none => dictGet c d₂ := by
  induction d₁ with
  | nil => simp [dictGet_nil]
  | cons p d ih =>
    by_cases h : p.1 = c <;> simp [dictGet_cons, h, ih]

theorem dictGet_none_of_not_any (k : Str) (d : Dict α)
    (h : d.any (fun p => decide (p.1 = k)) = false) :
    dictGet k d = none := by
  induction d with
  | nil => rfl
  | cons p d ih =>
    simp only [List.any_cons, Bool.or_eq_false_iff, decide_eq_false_iff_not] at h
    simp [dictGet_cons, h.1, ih h.2]

theorem dictGet_isSome_of_any (k : Str) (d : Dict α)
    (h : d.any (fun p => decide (p.1 = k)) = true) :
    (dictGet k d).isSome = true := by
  induction d with
  | nil => simp at h
  | cons p d ih =>
    by_cases hpk : p.1 = k
    · simp [dictGet_cons, hpk]
    · simp only [List.any_cons, Bool.or_eq_true_iff, decide_eq_true_eq] at h
      rcases h with h | h
      · exact absurd h hpk
      · simp [dictGet_cons, hpk, ih h]

theorem dictGet_overwrite (c k : Str) (v : α) (d : Dict α) :
    dictGet c (d.map (fun p => if p.1 = k then (k, v) else p)) =
      if c = k then (dictGet k d).map (fun _ => v) else dictGet c d := by
  induction d with
  | nil => by_cases h : c = k <;> simp [dictGet_nil, h]
  | cons p d ih =>
    simp only [List.map_cons]
    by_cases hck : c = k
    · subst hck
      rw [if_pos rfl] at ih ⊢
      by_cases hpc : p.1 = c
      · rw [if_pos hpc, dictGet_cons, dictGet_cons, if_pos hpc]
        simp
      · rw [if_neg hpc, dictGet_cons, dictGet_cons, if_neg hpc, if_neg hpc, ih]
    · rw [if_neg hck] at ih ⊢
      have hkc : ¬ k = c := fun h => hck h.symm
      by_cases hpk : p.1 = k
      · have hpc : ¬ p.1 = c := fun h => hck ((hpk ▸ h : k = c).symm)
        rw [if_pos hpk, dictGet_cons, dictGet_cons, if_neg hkc, if_neg hpc, ih]
      · rw [if_neg hpk, dictGet_cons, dictGet_cons, ih]

theorem dictGet_dictInsert (c k : Str) (v : α) (d : Dict α) :
    dictGet c (dictInsert k v d) = if c = k then some v else dictGet c d := by
  unfold dictInsert
  by_cases hany : d.any (fun p => decide (p.1 = k)) = true
  · rw [if_pos hany, dictGet_overwrite]
    by_cases hck : c = k
    · have hs := dictGet_isSome_of_any k d hany
      cases hkd : dictGet k d with
      | none => rw [hkd] at hs; simp at hs
      | some w => simp [hck, hkd]
    · simp [hck]
  · rw [if_neg hany, dictGet_append]
    by_cases hck : c = k
    · subst hck
      rw [dictGet_none_of_not_any c d (Bool.eq_false_iff.mpr hany ▸ rfl)]
      simp [dictGet_cons]
    · have hkc : ¬ k = c := fun h => hck h.symm
      cases hcd : dictGet c d <;> simp [dictGet_cons, dictGet_nil, hkc, hck]

theorem dictGet_dictUpdate (c k : Str) (f : α → α) (d : Dict α) :
    dictGet c (dictUpdate k f d) =
      if c = k then (dictGet c d).map f else dictGet c d := by
  induction d with
  | nil => by_cases h : c = k <;> simp [dictGet_nil, dictUpdate, h]
  | cons p d ih =>
    simp only [dictUpdate, List.map_cons] at ih ⊢
    by_cases hck : c = k
    · subst hck
      rw [if_pos rfl] at ih ⊢
      by_cases hpc : p.1 = c
      · rw [if_pos hpc, dictGet_cons, dictGet_cons, if_pos hpc, if_pos hpc]
        simp
      · rw [if_neg hpc, dictGet_cons, dictGet_cons, if_neg hpc, if_neg hpc, ih]
    · rw [if_neg hck] at ih ⊢
      by_cases hpk : p.1 = k
      · have hpc : ¬ p.1 = c := fun h => hck ((hpk ▸ h : k = c).symm)
        rw [if_pos hpk, dictGet_cons, dictGet_cons, if_neg hpc, if_neg hpc, ih]
      · by_cases hpc : p.1 = c
        · rw [if_neg hpk, dictGet_cons, dictGet_cons, if_pos hpc, if_pos hpc]
        · rw [if_neg hpk, dictGet_cons, dictGet_cons, if_neg hpc, if_neg hpc, ih]

theorem any_key_dictInsert (k : Str) (v : α) (d : Dict α) :
    (dictInsert k v d).any (fun p => decide (p.1 = k)) = true := by
  unfold dictInsert
  by_cases hany : d.any (fun p => decide (p.1 = k)) = true
  · rw [if_pos hany]
    rw [List.any_eq_true] at hany ⊢
    obtain ⟨p, hp, hpk⟩ := hany
    refine ⟨(k, v), List.mem_map.mpr ⟨p, hp, ?_⟩, by simp⟩
    simp only [decide_eq_true_eq] at hpk
    rw [if_pos hpk]
  · rw [if_neg hany]
    rw [List.any_eq_true]
    exact ⟨(k, v), List.mem_append.mpr (Or.inr (List.mem_singleton.mpr rfl)), by simp⟩

theorem dictInsert_dictInsert (k : Str) (v : α) (d : Dict α) :
    dictInsert k v (dictInsert k v d) = dictInsert k v d := by
  conv_lhs => rw [dictInsert]
  rw [if_pos (any_key_dictInsert k v d)]
  unfold dictInsert
  by_cases hany : d.any (fun p => decide (p.1 = k)) = true
  · rw [if_pos hany, List.map_map]
    refine List.map_congr_left (fun p _ => ?_)
    by_cases hpk : p.1 = k <;> simp [hpk]
  · rw [if_neg hany, List.map_append]
    rw [Bool.not_eq_true, List.any_eq_false] at hany
    have h1 : d.map (fun p => if p.1 = k then (k, v) else p) = d := by
      have := List.map_congr_left (l := d)
        (f := fun p => if p.1 = k then (k, v) else p) (g := fun p => p)
        (fun p hp => by
          have : ¬ p.1 = k := by simpa using hany p hp
          simp [this])
      simpa using this
    rw [h1]
    simp

end DictLemmas

section DictKeys

variable {α : Type}

/-- Keys of a dict are pairwise distinct (the invariant real Python
dicts enjoy; maintained by `dictInsert` and `dictUpdate`). -/
def nodupKeys (d : Dict α) : Prop := (d.map (fun p => p.1)).Nodup

theorem nodupKeys_nil : nodupKeys ([] : Dict α) := List.nodup_nil

theorem nodupKeys_dictInsert (k : Str) (v : α) (d : Dict α)
    (h : nodupKeys d) : nodupKeys (dictInsert k v d) := by
  unfold dictInsert
  by_cases hany : d.any (fun p => decide (p.1 = k)) = true
  · rw [if_pos hany]
    have hkeys : (d.map (fun p => if p.1 = k then (k, v) else p)).map (fun p => p.1) =
        d.map (fun p => p.1) := by
      rw [List.map_map]
      exact List.map_congr_left (fun p _ => by by_cases hpk : p.1 = k <;> simp [hpk])
    unfold nodupKeys
    rw [hkeys]
    exact h
  · rw [if_neg hany]
    rw [Bool.not_eq_true, List.any_eq_false] at hany
    unfold nodupKeys
    rw [List.map_append]
    simp only [List.map_cons, List.map_nil]
    refine List.Nodup.append h (List.nodup_singleton k) (fun a ha hb => ?_)
    rw [List.mem_singleton] at hb
    obtain ⟨p, hp, hpk⟩ := List.mem_map.mp ha
    have hne : ¬ p.1 = k := by simpa using hany p hp
    exact hne (hpk.trans hb)

theorem nodupKeys_dictUpdate (k : Str) (f : α → α) (d : Dict α)
    (h : nodupKeys d) : nodupKeys (dictUpdate k f d) := by
  unfold nodupKeys dictUpdate
  have hkeys : (d.map (fun p => if p.1 = k then (p.1, f p.2) else p)).map (fun p => p.1) =
      d.map (fun p => p.1) := by
    rw [List.map_map]
    exact List.map_congr_left (fun p _ => by by_cases hpk : p.1 = k <;> simp [hpk])
  rw [hkeys]
  exact h

theorem dictCount_eq_zero_of_not_mem (k : Str) (d : Dict α)
    (h : ∀ p ∈ d, p.1 ≠ k) : dictCount k d = 0 := by
  unfold dictCount
  rw [List.countP_eq_zero]
  intro p hp
  simpa using h p hp

theorem dictCount_eq_one (k : Str) (d : Dict α) (h : nodupKeys d)
    (hs : (dictGet k d).isSome = true) : dictCount k d = 1 := by
  induction d with
  | nil => simp [dictGet_nil] at hs
  | cons p d ih =>
    unfold nodupKeys at h
    simp only [List.map_cons, List.nodup_cons] at h
    by_cases hpk : p.1 = k
    · have hz : dictCount k d = 0 := by
        refine dictCount_eq_zero_of_not_mem k d (fun q hq hqk => ?_)
        exact h.1 (List.mem_map.mpr ⟨q, hq, hqk ▸ hpk.symm⟩)
      unfold dictCount at hz ⊢
      rw [List.countP_cons]
      simp [hpk, hz, dictCount]
    · rw [dictGet_cons, if_neg hpk] at hs
      have := ih h.2 hs
      unfold dictCount at this ⊢
      rw [List.countP_cons]
      simp [hpk, this, dictCount]

end DictKeys

section GetCvesLemmas

variable {σ : Type}

theorem dictGet_initVulns (cpes : List Str) (d : Dict (Dict σ)) (c : Str) :
    dictGet c (cpes.foldl (fun d cpe => dictInsert cpe [] d) d) =
      if c ∈ cpes then some [] else dictGet c d := by
  induction cpes generalizing d with
  | nil => simp
  | cons a rest ih =>
    simp only [List.foldl_cons]
    rw [ih]
    by_cases hcr : c ∈ rest
    · simp [hcr, List.mem_cons]
    · rw [if_neg hcr, dictGet_dictInsert]
      by_cases hca : c = a <;> simp [hca, hcr, List.mem_cons]

theorem dictGet_cveRowStepP (pyFloat : Str → σ) (cpes : List Str)
    (v : Dict (Dict σ)) (row : Row) (c : Str) :
    dictGet c (cveRowStepP pyFloat cpes v row) =
      if c ∈ cpes ∧ rowMatches c row = true then
        (dictGet c v).map
          (dictInsert (stripQuotes (col row 1)) (pyFloat (stripQuotes (col row 2))))
      else dictGet c v := by
  induction cpes generalizing v with
  | nil => simp [cveRowStepP]
  | cons a rest ih =>
    have hidem : ∀ o : Option (Dict σ),
        (o.map (dictInsert (stripQuotes (col row 1)) (pyFloat (stripQuotes (col row 2))))).map
            (dictInsert (stripQuotes (col row 1)) (pyFloat (stripQuotes (col row 2)))) =
          o.map (dictInsert (stripQuotes (col row 1)) (pyFloat (stripQuotes (col row 2)))) := by
      intro o
      cases o <;> simp [dictInsert_dictInsert]
    simp only [cveRowStepP, List.foldl_cons] at ih ⊢
    rw [ih]
    by_cases ha : rowMatches a row = true
    · rw [if_pos ha]
      by_cases hc : c ∈ rest ∧ rowMatches c row = true
      · rw [if_pos hc, if_pos ⟨List.mem_cons.mpr (Or.inr hc.1), hc.2⟩, dictGet_dictUpdate]
        by_cases hca : c = a
        · rw [if_pos hca, hidem]
        · rw [if_neg hca]
      · rw [if_neg hc, dictGet_dictUpdate]
        by_cases hca : c = a
        · subst hca
          rw [if_pos rfl, if_pos ⟨List.mem_cons.mpr (Or.inl rfl), ha⟩]
        · rw [if_neg hca, if_neg ?hrhs]
          case hrhs =>
            rintro ⟨hmem, hm⟩
            rcases List.mem_cons.mp hmem with h | h
            · exact hca h
            · exact hc ⟨h, hm⟩
    · rw [if_neg ha]
      by_cases hc : c ∈ rest ∧ rowMatches c row = true
      · rw [if_pos hc, if_pos ⟨List.mem_cons.mpr (Or.inr hc.1), hc.2⟩]
      · rw [if_neg hc, if_neg ?hrhs2]
        case hrhs2 =>
          rintro ⟨hmem, hm⟩
          rcases List.mem_cons.mp hmem with h | h
          · exact ha (h ▸ hm)
          · exact hc ⟨h, hm⟩

theorem dictGet_rows_foldl (pyFloat : Str → σ) (cpes : List Str)
    (table : List Row) (v : Dict (Dict σ)) (c : Str) :
    dictGet c (table.foldl (cveRowStepP pyFloat cpes) v) =
      if c ∈ cpes then (dictGet c v).map (fun d => innerScan pyFloat c table d)
      else dictGet c v := by
  induction table generalizing v with
  | nil =>
    by_cases hc : c ∈ cpes
    · simp only [List.foldl_nil, if_pos hc, innerScan]
      cases dictGet c v <;> simp
    · simp [hc]
  | cons row rest ih =>
    simp only [List.foldl_cons]
    rw [ih, dictGet_cveRowStepP]
    by_cases hc : c ∈ cpes
    · rw [if_pos hc, if_pos hc]
      by_cases hm : rowMatches c row = true
      · rw [if_pos ⟨hc, hm⟩, Option.map_map]
        cases dictGet c v <;> simp [innerScan, List.foldl_cons, hm, Function.comp]
      · rw [if_neg (fun h => hm h.2)]
        cases dictGet c v <;> simp [innerScan, List.foldl_cons, hm]
    · rw [if_neg hc, if_neg hc, if_neg (fun h => hc h.1)]

theorem dictGet_get_cvesP (pyFloat : Str → σ) (table : List Row)
    (cpes : List Str) (c : Str) :
    dictGet c (get_cvesP pyFloat table cpes) =
      if c ∈ cpes then some (innerScan pyFloat c table []) else none := by
  unfold get_cvesP
  rw [dictGet_rows_foldl]
  by_cases hc : c ∈ cpes
  · rw [if_pos hc, if_pos hc, dictGet_initVulns, if_pos hc]
    simp
  · rw [if_neg hc, if_neg hc, dictGet_initVulns, if_neg hc, dictGet_nil]

theorem dictGet_innerScan (pyFloat : Str → σ) (c cve : Str)
    (table : List Row) (d : Dict σ) :
    dictGet cve (innerScan pyFloat c table d) =
      match lastScoreFor pyFloat table c cve with
      | some s => some s
      | none => dictGet cve d := by
  induction table using List.reverseRecOn with
  | nil => simp [innerScan, lastScoreFor, matchingCveRows]
  | append_singleton t r ih =>
    unfold innerScan at ih ⊢
    rw [List.foldl_append, List.foldl_cons, List.foldl_nil]
    unfold lastScoreFor matchingCveRows at ih ⊢
    rw [List.filter_append]
    by_cases hm : rowMatches c r = true
    · by_cases hk : stripQuotes (col r 1) = cve
      · rw [if_pos hm]
        have hfil : List.filter
            (fun row => rowMatches c row && decide (stripQuotes (col row 1) = cve)) [r] = [r] := by
          simp [List.filter, hm, hk]
        rw [hfil, List.getLast?_concat]
        simp [dictGet_dictInsert, hk]
      · rw [if_pos hm]
        have hfil : List.filter
            (fun row => rowMatches c row && decide (stripQuotes (col row 1) = cve)) [r] = [] := by
          simp [List.filter, hm, hk]
        rw [hfil, List.append_nil, dictGet_dictInsert, if_neg (fun h => hk h.symm)]
        exact ih
    · rw [if_neg hm]
      have hfil : List.filter
          (fun row => rowMatches c row && decide (stripQuotes (col row 1) = cve)) [r] = [] := by
        simp [List.filter, hm]
      rw [hfil, List.append_nil]
      exact ih

theorem nodupKeys_innerScan (pyFloat : Str → σ) (c : Str) (table : List Row)
    (d : Dict σ) (h : nodupKeys d) : nodupKeys (innerScan pyFloat c table d) := by
  induction table generalizing d with
  | nil => exact h
  | cons r t ih =>
    unfold innerScan at ih ⊢
    rw [List.foldl_cons]
    by_cases hm : rowMatches c r = true
    · rw [if_pos hm]
      exact ih _ (nodupKeys_dictInsert _ _ _ h)
    · rw [if_neg hm]
      exact ih _ h

end GetCvesLemmas

section GetCvesExec

variable {σ : Type}

theorem exceptBind_ok {ε α β : Type} (a : α) (f : α → Except ε β) :
    (Except.ok a : Except ε α) >>= f = f a := rfl

theorem exceptBind_error {ε α β : Type} (e : ε) (f : α → Except ε β) :
    (Except.error e : Except ε α) >>= f = Except.error e := rfl

theorem pyIndex_eq_col (row : Row) (i : Nat) (h : i < row.length) :
    pyIndex row i = Except.ok (col row i) := by
  unfold pyIndex col
  rw [List.getElem?_eq_getElem h]
  rw [List.getD_eq_getElem?_getD, List.getElem?_eq_getElem h]
  rfl

theorem cveRowStep_ok (pyFloat : Str → σ) (cpes : List Str)
    (v : Dict (Dict σ)) (row : Row) (h : 3 ≤ row.length) :
    cveRowStep pyFloat cpes v row = Except.ok (cveRowStepP pyFloat cpes v row) := by
  induction cpes generalizing v with
  | nil => rfl
  | cons a rest ih =>
    have hstep : (do
        let c0 ← pyIndex row 0
        if strIn a c0 then do
          let c1 ← pyIndex row 1
          let c2 ← pyIndex row 2
          pure (dictUpdate a (dictInsert (stripQuotes c1) (pyFloat (stripQuotes c2))) v)
        else
          pure v) =
        (Except.ok (if rowMatches a row then
          dictUpdate a
            (dictInsert (stripQuotes (col row 1)) (pyFloat (stripQuotes (col row 2)))) v
        else v) : Except Err (Dict (Dict σ))) := by
      rw [pyIndex_eq_col row 0 (by omega), exceptBind_ok]
      by_cases hm : strIn a (col row 0) = true
      · rw [if_pos hm, pyIndex_eq_col row 1 (by omega), exceptBind_ok,
          pyIndex_eq_col row 2 (by omega), exceptBind_ok,
          if_pos (show rowMatches a row = true from hm)]
        rfl
      · rw [if_neg hm, if_neg (show ¬ rowMatches a row = true from hm)]
        rfl
    unfold cveRowStep cveRowStepP at ih ⊢
    simp only [List.foldlM_cons, List.foldl_cons]
    rw [hstep, exceptBind_ok]
    exact ih _

theorem foldlM_rows_ok (pyFloat : Str → σ) (cpes : List Str)
    (rows : List Row) (v : Dict (Dict σ)) (h : ∀ r ∈ rows, 3 ≤ r.length) :
    rows.foldlM (cveRowStep pyFloat cpes) v =
      Except.ok (rows.foldl (cveRowStepP pyFloat cpes) v) := by
  induction rows generalizing v with
  | nil => rfl
  | cons r t ih =>
    rw [List.foldlM_cons, List.foldl_cons,
      cveRowStep_ok pyFloat cpes v r (h r (List.mem_cons_self r t)), exceptBind_ok]
    exact ih _ (fun r hr => h r (List.mem_cons_of_mem _ hr))

theorem get_cves_eq_ok (pyFloat : Str → σ) (L : CPELookup) (cpes : List Str)
    (h : ∀ r ∈ L.table, 3 ≤ r.length) :
    CPELookup.get_cves pyFloat L cpes =
      Except.ok (get_cvesP pyFloat (L.table.drop L.pos) cpes, { L with pos := 0 }) := by
  have hfold := foldlM_rows_ok pyFloat cpes (L.table.drop L.pos)
    (cpes.foldl (fun d cpe => dictInsert cpe [] d) [])
    (fun r hr => h r (List.mem_of_mem_drop hr))
  simp only [CPELookup.get_cves, get_cvesP]
  rw [hfold, exceptBind_ok]
  rfl

theorem get_cves_ok_state (pyFloat : Str → σ) (L : CPELookup)
    (cpes : List Str) (vulns : Dict (Dict σ)) (L' : CPELookup)
    (h : CPELookup.get_cves pyFloat L cpes = Except.ok (vulns, L')) :
    L' = { L with pos := 0 } := by
  simp only [CPELookup.get_cves] at h
  cases hf : (L.table.drop L.pos).foldlM (cveRowStep pyFloat cpes)
      (cpes.foldl (fun d cpe => dictInsert cpe [] d) []) with
  | error e =>
    rw [hf, exceptBind_error] at h
    exact Except.noConfusion h
  | ok w =>
    rw [hf, exceptBind_ok] at h
    simp only [pure, Except.pure, Except.ok.injEq, Prod.mk.injEq] at h
    exact h.2.symm

theorem get_cves_nil_cpes (pyFloat : Str → σ) (L : CPELookup) :
    CPELookup.get_cves pyFloat L [] = Except.ok ([], { L with pos := 0 }) := by
  have hrows : ∀ (rows : List Row) (v : Dict (Dict σ)),
      rows.foldlM (cveRowStep pyFloat []) v = Except.ok v := by
    intro rows
    induction rows with
    | nil => intro v; rfl
    | cons r t ih =>
      intro v
      rw [List.foldlM_cons,
        show cveRowStep pyFloat [] v r = Except.ok v from rfl, exceptBind_ok]
      exact ih v
  simp only [CPELookup.get_cves]
  rw [hrows, exceptBind_ok]
  rfl

theorem get_cvesP_nil_cpes (pyFloat : Str → σ) (table : List Row) :
    get_cvesP pyFloat table [] = [] := by
  unfold get_cvesP
  induction table with
  | nil => rfl
  | cons r t ih => exact ih

theorem get_cvesP_ne_nil (pyFloat : Str → σ) (table : List Row)
    (cpes : List Str) (h : cpes ≠ []) :
    get_cvesP pyFloat table cpes ≠ [] := by
  intro hnil
  cases cpes with
  | nil => exact h rfl
  | cons c rest =>
    have hmem := dictGet_get_cvesP pyFloat table (c :: rest) c
    rw [hnil, if_pos (List.mem_cons_self c rest)] at hmem
    exact Option.noConfusion hmem

theorem lastScoreFor_isSome_of_mem (pyFloat : Str → σ) (table : List Row)
    (c : Str) (r : Row) (hr : r ∈ table) (hm : rowMatches c r = true) :
    (lastScoreFor pyFloat table c (stripQuotes (col r 1))).isSome = true := by
  unfold lastScoreFor
  have hmem : r ∈ matchingCveRows table c (stripQuotes (col r 1)) :=
    List.mem_filter.mpr ⟨hr, by simp [hm]⟩
  have hne : matchingCveRows table c (stripQuotes (col r 1)) ≠ [] := by
    intro hnil
    rw [hnil] at hmem
    exact List.not_mem_nil r hmem
  cases hl : (matchingCveRows table c (stripQuotes (col r 1))).getLast? with
  | none =>
    rw [List.getLast?_eq_none_iff] at hl
    exact absurd hl hne
  | some row => rfl

end GetCvesExec

section ClaimC1

/-- C1 counterexample: with the parse function taken as the identity,
querying CPE "a" against the two-row table [["a","X","1"], ["a","X","2"]]
returns the mapping a ↦ \x7bX ↦ "2"\x7d.  The first row's first column
contains "a" and its CVE/score pair is (X, "1"), yet the returned inner
mapping does not contain that pair: the second row overwrote the score.
So the inner mapping does not contain a CVE/score pair for every
matching CSV row, contradicting the claim as stated. -/
theorem C1_counterexample :
    CPELookup.get_cves (fun s => s)
        { table := [["a".data, "X".data, "1".data], ["a".data, "X".data, "2".data]],
          pos := 0 }
        ["a".data] =
      Except.ok ([("a".data, [("X".data, "2".data)])],
        { table := [["a".data, "X".data, "1".data], ["a".data, "X".data, "2".data]],
          pos := 0 }) ∧
    rowMatches "a".data ["a".data, "X".data, "1".data] = true ∧
    stripQuotes (col ["a".data, "X".data, "1".data] 1) = "X".data ∧
    stripQuotes (col ["a".data, "X".data, "1".data] 2) = "1".data ∧
    ¬ dictGet "X".data [("X".data, "2".data)] = some "1".data := by
  refine ⟨by rfl, by decide, by decide, by decide, by decide⟩

/-- C1 (amended): for every list of queried CPE strings and every CSV
table all of whose rows have at least three columns, get_cves returns a
mapping whose keys are exactly the queried CPEs, and for each queried
CPE the inner mapping contains, for every CSV row whose first column
contains that CPE as a substring, an entry for that row's CVE id (the
second column with surrounding single quotes stripped) whose score is
the parsed third column of the last matching row naming that CVE id. -/
theorem C1_get_cves_amended {σ : Type} (pyFloat : Str → σ) (table : List Row)
    (cpes : List Str) (hlen : ∀ r ∈ table, 3 ≤ r.length) :
    ∃ vulns, CPELookup.get_cves pyFloat { table := table, pos := 0 } cpes =
        Except.ok (vulns, { table := table, pos := 0 }) ∧
      (∀ c, (dictGet c vulns).isSome = true ↔ c ∈ cpes) ∧
      (∀ c ∈ cpes, ∀ r ∈ table, rowMatches c r = true →
        ∃ inner, dictGet c vulns = some inner ∧
          dictGet (stripQuotes (col r 1)) inner =
            lastScoreFor pyFloat table c (stripQuotes (col r 1)) ∧
          (lastScoreFor pyFloat table c (stripQuotes (col r 1))).isSome = true) := by
  refine ⟨get_cvesP pyFloat table cpes, ?_, ?_, ?_⟩
  · simpa using get_cves_eq_ok pyFloat { table := table, pos := 0 } cpes hlen
  · intro c
    rw [dictGet_get_cvesP]
    by_cases hc : c ∈ cpes <;> simp [hc]
  · intro c hc r hr hm
    refine ⟨innerScan pyFloat c table [], ?_, ?_, ?_⟩
    · rw [dictGet_get_cvesP, if_pos hc]
    · rw [dictGet_innerScan]
      have hs := lastScoreFor_isSome_of_mem pyFloat table c r hr hm
      cases hls : lastScoreFor pyFloat table c (stripQuotes (col r 1)) with
      | none => rw [hls] at hs; simp at hs
      | some s => rfl
    · exact lastScoreFor_isSome_of_mem pyFloat table c r hr hm

/-- Witness for C1 (amended) at a concrete one-row table. -/
theorem C1_get_cves_amended_witness :
    ∃ vulns, CPELookup.get_cves (fun s => s)
        { table := [["a".data, "X".data, "7.5".data]], pos := 0 } ["a".data] =
        Except.ok (vulns, { table := [["a".data, "X".data, "7.5".data]], pos := 0 }) ∧
      (∀ c, (dictGet c vulns).isSome = true ↔ c ∈ ["a".data]) ∧
      (∀ c ∈ ["a".data], ∀ r ∈ [["a".data, "X".data, "7.5".data]],
        rowMatches c r = true →
        ∃ inner, dictGet c vulns = some inner ∧
          dictGet (stripQuotes (col r 1)) inner =
            lastScoreFor (fun s => s) [["a".data, "X".data, "7.5".data]] c
              (stripQuotes (col r 1)) ∧
          (lastScoreFor (fun s => s) [["a".data, "X".data, "7.5".data]] c
              (stripQuotes (col r 1))).isSome = true) :=
  C1_get_cves_amended (fun s => s) [["a".data, "X".data, "7.5".data]]
    ["a".data] (by decide)

end ClaimC1

section ClaimC8

/-- C8: every successful call to get_cves leaves the lookup state with
the same CSV table and the file repositioned at its start, so that any
following call on the returned state scans the entire table from the
beginning, exactly as a call on a fresh state over the same table. -/
theorem C8_get_cves_resets {σ : Type} (pyFloat : Str → σ) (L : CPELookup)
    (cpes : List Str) (vulns : Dict (Dict σ)) (L' : CPELookup)
    (h : CPELookup.get_cves pyFloat L cpes = Except.ok (vulns, L')) :
    L'.table = L.table ∧ L'.pos = 0 ∧
    (∀ cpes2 : List Str, CPELookup.get_cves pyFloat L' cpes2 =
      CPELookup.get_cves pyFloat { table := L.table, pos := 0 } cpes2) := by
  have hst := get_cves_ok_state pyFloat L cpes vulns L' h
  subst hst
  exact ⟨rfl, rfl, fun _ => rfl⟩

/-- Witness for C8 at a concrete state whose position is past row 0. -/
theorem C8_get_cves_resets_witness :
    ({ table := [["a".data, "X".data, "3".data]], pos := 1 } : CPELookup).table =
      ({ table := [["a".data, "X".data, "3".data]], pos := 1 } : CPELookup).table ∧
    (0 : Nat) = 0 ∧
    (∀ cpes2 : List Str,
      CPELookup.get_cves (fun s => s)
          { table := [["a".data, "X".data, "3".data]], pos := 0 } cpes2 =
        CPELookup.get_cves (fun s => s)
          { table := [["a".data, "X".data, "3".data]], pos := 0 } cpes2) := by
  have h := C8_get_cves_resets (fun s => s)
    { table := [["a".data, "X".data, "3".data]], pos := 1 } ["a".data]
    [("a".data, [])] { table := [["a".data, "X".data, "3".data]], pos := 0 }
    (by rfl)
  exact ⟨rfl, h.2.1, h.2.2⟩

end ClaimC8

section ClaimC9

/-- C9: within one get_cves call, when two or more CSV rows match the
same queried CPE and name the same CVE id, the returned mapping holds
exactly one entry for that CVE id and its score comes from the last
such row in file order. -/
theorem C9_last_row_wins {σ : Type} (pyFloat : Str → σ) (table : List Row)
    (cpes : List Str) (c cve : Str) (hlen : ∀ r ∈ table, 3 ≤ r.length)
    (hc : c ∈ cpes) (hdup : 2 ≤ (matchingCveRows table c cve).length) :
    ∃ vulns inner,
      CPELookup.get_cves pyFloat { table := table, pos := 0 } cpes =
        Except.ok (vulns, { table := table, pos := 0 }) ∧
      dictGet c vulns = some inner ∧
      dictCount cve inner = 1 ∧
      dictGet cve inner =
        (matchingCveRows table c cve).getLast?.map
          (fun row => pyFloat (stripQuotes (col row 2))) := by
  have hne : matchingCveRows table c cve ≠ [] := by
    intro h0
    rw [h0] at hdup
    simp at hdup
  refine ⟨get_cvesP pyFloat table cpes, innerScan pyFloat c table [], ?_, ?_, ?_, ?_⟩
  · simpa using get_cves_eq_ok pyFloat { table := table, pos := 0 } cpes hlen
  · rw [dictGet_get_cvesP, if_pos hc]
  · refine dictCount_eq_one cve _
      (nodupKeys_innerScan pyFloat c table [] nodupKeys_nil) ?_
    rw [dictGet_innerScan]
    unfold lastScoreFor
    cases hl : (matchingCveRows table c cve).getLast? with
    | none => rw [List.getLast?_eq_none_iff] at hl; exact absurd hl hne
    | some row => rfl
  · rw [dictGet_innerScan]
    unfold lastScoreFor
    cases hl : (matchingCveRows table c cve).getLast? with
    | none => rw [List.getLast?_eq_none_iff] at hl; exact absurd hl hne
    | some row => rfl

/-- Witness for C9 at a table with two rows naming the same CVE. -/
theorem C9_last_row_wins_witness :
    ∃ vulns inner,
      CPELookup.get_cves (fun s => s)
          { table := [["a".data, "X".data, "1".data], ["a".data, "X".data, "2".data]],
            pos := 0 } ["a".data] =
        Except.ok (vulns,
          { table := [["a".data, "X".data, "1".data], ["a".data, "X".data, "2".data]],
            pos := 0 }) ∧
      dictGet "a".data vulns = some inner ∧
      dictCount "X".data inner = 1 ∧
      dictGet "X".data inner =
        (matchingCveRows [["a".data, "X".data, "1".data], ["a".data, "X".data, "2".data]]
            "a".data "X".data).getLast?.map
          (fun row => (fun s => s) (stripQuotes (col row 2))) :=
  C9_last_row_wins (fun s => s)
    [["a".data, "X".data, "1".data], ["a".data, "X".data, "2".data]]
    ["a".data] "a".data "X".data (by decide) (by decide) (by decide)

end ClaimC9

section CpeLemmas

theorem intercalate_cons_cons {α : Type} (s a b : List α) (t : List (List α)) :
    List.intercalate s (a :: b :: t) = a ++ s ++ List.intercalate s (b :: t) := by
  simp [List.intercalate, List.intersperse_cons_cons, List.append_assoc]

theorem intercalate_single {α : Type} (s a : List α) :
    List.intercalate s [a] = a := by
  simp [List.intercalate, List.intersperse]

theorem wfField_spec (f : Str) (h : wfField f = true) :
    f ≠ [] ∧ ':' ∉ f ∧ '~' ∉ f := by
  unfold wfField at h
  simp only [Bool.and_eq_true, Bool.not_eq_true'] at h
  obtain ⟨⟨h1, h2⟩, h3⟩ := h
  refine ⟨?_, ?_, ?_⟩
  · intro hf
    rw [hf] at h1
    simp at h1
  · intro hc
    rw [List.contains_eq_any_beq] at h2
    rw [List.any_eq_false] at h2
    exact absurd (by simp : (':' == ':') = true) (by simpa using h2 ':' hc)
  · intro hc
    rw [List.contains_eq_any_beq] at h3
    rw [List.any_eq_false] at h3
    exact absurd (by simp : ('~' == '~') = true) (by simpa using h3 '~' hc)

theorem wf23_field (r : Cpe23) (h : wf23 r = true) (f : Str)
    (hf : f ∈ r.fields) : wfField f = true := by
  rw [wf23, List.all_eq_true] at h
  exact h f hf

theorem unpackF_field22 (f : Str) (h : wfField f = true) :
    unpackF (field22 f) = f := by
  unfold unpackF field22
  by_cases hstar : f = "*".data
  · rw [if_pos hstar, if_pos rfl, hstar]
  · rw [if_neg hstar, if_neg (wfField_spec f h).1]

theorem mem_intercalate_char (c x : Char) (pieces : List Str)
    (h : c ∈ List.intercalate [x] pieces) : c = x ∨ ∃ p ∈ pieces, c ∈ p := by
  induction pieces with
  | nil => simp [List.intercalate, List.intersperse] at h
  | cons a t ih =>
    cases t with
    | nil =>
      rw [intercalate_single] at h
      exact Or.inr ⟨a, List.mem_cons_self a [], h⟩
    | cons b t2 =>
      rw [intercalate_cons_cons] at h
      rcases List.mem_append.mp h with h1 | h2
      · rcases List.mem_append.mp h1 with ha | hx
        · exact Or.inr ⟨a, List.mem_cons_self a _, ha⟩
        · exact Or.inl (List.mem_singleton.mp hx)
      · rcases ih h2 with h3 | ⟨p, hp, hcp⟩
        · exact Or.inl h3
        · exact Or.inr ⟨p, List.mem_cons_of_mem a hp, hcp⟩

theorem field22_no_colon (f : Str) (h : ':' ∉ f) : ':' ∉ field22 f := by
  unfold field22
  by_cases hstar : f = "*".data
  · rw [if_pos hstar]
    simp
  · rw [if_neg hstar]
    exact h

theorem field22_no_tilde (f : Str) (h : '~' ∉ f) : '~' ∉ field22 f := by
  unfold field22
  by_cases hstar : f = "*".data
  · rw [if_pos hstar]
    simp
  · rw [if_neg hstar]
    exact h

theorem comps22_no_colon (r : Cpe23) (h : wf23 r = true) :
    ∀ x ∈ comps22 r, ':' ∉ x := by
  have hfc : ∀ f ∈ r.fields, ':' ∉ f :=
    fun f hf => (wfField_spec f (wf23_field r h f hf)).2.1
  have hft : ∀ f ∈ r.fields, '~' ∉ f :=
    fun f hf => (wfField_spec f (wf23_field r h f hf)).2.2
  have hed : ':' ∉ ed22 r := by
    unfold ed22
    by_cases hext : extAllAny r = true
    · rw [if_pos hext]
      exact field22_no_colon _ (hfc r.edition (by simp [Cpe23.fields]))
    · rw [if_neg hext]
      intro hc
      rcases List.mem_cons.mp hc with h1 | h2
      · exact absurd h1 (by decide)
      · rcases mem_intercalate_char ':' '~' _ h2 with h3 | ⟨p, hp, hcp⟩
        · exact absurd h3 (by decide)
        · simp only [List.mem_cons, List.not_mem_nil, or_false] at hp
          rcases hp with h4|h4|h4|h4|h4 <;> subst h4
          · exact field22_no_colon _ (hfc r.edition (by simp [Cpe23.fields])) hcp
          · exact field22_no_colon _ (hfc r.sw_edition (by simp [Cpe23.fields])) hcp
          · exact field22_no_colon _ (hfc r.target_sw (by simp [Cpe23.fields])) hcp
          · exact field22_no_colon _ (hfc r.target_hw (by simp [Cpe23.fields])) hcp
          · exact field22_no_colon _ (hfc r.other (by simp [Cpe23.fields])) hcp
  intro x hx
  simp only [comps22, List.mem_cons, List.not_mem_nil, or_false] at hx
  rcases hx with h1|h1|h1|h1|h1|h1|h1 <;> subst h1
  · exact field22_no_colon _ (hfc r.part (by simp [Cpe23.fields]))
  · exact field22_no_colon _ (hfc r.vendor (by simp [Cpe23.fields]))
  · exact field22_no_colon _ (hfc r.product (by simp [Cpe23.fields]))
  · exact field22_no_colon _ (hfc r.version (by simp [Cpe23.fields]))
  · exact field22_no_colon _ (hfc r.update (by simp [Cpe23.fields]))
  · exact hed
  · exact field22_no_colon _ (hfc r.language (by simp [Cpe23.fields]))

end CpeLemmas

section CpeRoundTrip

theorem splitOn_cpe23_str (r : Cpe23) (h : wf23 r = true) :
    (cpe23_str r).splitOn ':' = "cpe".data :: "2.3".data :: r.fields := by
  unfold cpe23_str
  refine List.splitOn_intercalate _ ':' ?_ (by simp)
  intro l hl
  rcases List.mem_cons.mp hl with h1 | hl2
  · subst h1; decide
  rcases List.mem_cons.mp hl2 with h2 | hf
  · subst h2; decide
  · exact (wfField_spec l (wf23_field r h l hf)).2.1

theorem parse23_cpe23_str (r : Cpe23) (h : wf23 r = true) :
    parse23 (cpe23_str r) = some r := by
  have hall : r.fields.all wfField = true := h
  unfold parse23
  rw [splitOn_cpe23_str r h]
  obtain ⟨p, vd, pr, vr, up, ed, lg, se, ts, th, ot⟩ := r
  simp only [Cpe23.fields] at hall ⊢
  simp [parse23Parts, hall]

theorem trimTrailing_pad (l : List Str) :
    trimTrailing l ++ List.replicate (l.length - (trimTrailing l).length) [] = l := by
  unfold trimTrailing
  have hsplit : l.reverse.takeWhile (fun s => s.isEmpty) ++
      l.reverse.dropWhile (fun s => s.isEmpty) = l.reverse :=
    List.takeWhile_append_dropWhile _ _
  have htk : l.reverse.takeWhile (fun s => s.isEmpty) =
      List.replicate (l.reverse.takeWhile (fun s => s.isEmpty)).length ([] : Str) := by
    apply List.eq_replicate_of_mem
    intro b hb
    have hpb := List.mem_takeWhile_imp hb
    simpa [List.isEmpty_iff] using hpb
  have hl : l = (l.reverse.dropWhile (fun s => s.isEmpty)).reverse ++
      (l.reverse.takeWhile (fun s => s.isEmpty)).reverse := by
    conv_lhs => rw [← List.reverse_reverse l, ← hsplit]
    rw [List.reverse_append]
  have hlen2 : l.length =
      ((l.reverse.dropWhile (fun s => s.isEmpty)).reverse).length +
        (l.reverse.takeWhile (fun s => s.isEmpty)).length := by
    conv_lhs => rw [hl]
    simp [List.length_append, List.length_reverse]
  have hlen : l.length -
      ((l.reverse.dropWhile (fun s => s.isEmpty)).reverse).length =
      (l.reverse.takeWhile (fun s => s.isEmpty)).length := by
    omega
  have hrev : (l.reverse.takeWhile (fun s => s.isEmpty)).reverse =
      l.reverse.takeWhile (fun s => s.isEmpty) := by
    conv_lhs => rw [htk]
    rw [List.reverse_replicate]
    exact htk.symm
  rw [hlen, ← htk]
  conv_lhs => rw [← hrev]
  rw [← List.reverse_append, hsplit, List.reverse_reverse]

theorem trimTrailing_length_le (l : List Str) :
    (trimTrailing l).length ≤ l.length := by
  conv_rhs => rw [← trimTrailing_pad l]
  rw [List.length_append]
  omega

theorem mem_trimTrailing (l : List Str) (x : Str) (hx : x ∈ trimTrailing l) :
    x ∈ l := by
  unfold trimTrailing at hx
  rw [List.mem_reverse] at hx
  have := (List.dropWhile_sublist (l := l.reverse) (fun s => s.isEmpty)).subset hx
  rwa [List.mem_reverse] at this

theorem trimTrailing_ne_nil (r : Cpe23) (h : wf23 r = true)
    (hv : r.version ≠ "*".data) : trimTrailing (comps22 r) ≠ [] := by
  intro hnil
  unfold trimTrailing at hnil
  rw [List.reverse_eq_nil_iff] at hnil
  rw [List.dropWhile_eq_nil_iff] at hnil
  have hmem : field22 r.version ∈ (comps22 r).reverse := by
    rw [List.mem_reverse]
    simp [comps22]
  have hemp := hnil _ hmem
  rw [List.isEmpty_iff] at hemp
  unfold field22 at hemp
  rw [if_neg hv] at hemp
  exact (wfField_spec r.version
    (wf23_field r h r.version (by simp [Cpe23.fields]))).1 hemp

theorem unpackEd_ed22 (r : Cpe23) (h : wf23 r = true) :
    unpackEd (ed22 r) =
      some (r.edition, r.sw_edition, r.target_sw, r.target_hw, r.other) := by
  have hwe : wfField r.edition = true :=
    wf23_field r h r.edition (by simp [Cpe23.fields])
  unfold ed22
  by_cases hext : extAllAny r = true
  · rw [if_pos hext]
    have hexts : r.sw_edition = "*".data ∧ r.target_sw = "*".data ∧
        r.target_hw = "*".data ∧ r.other = "*".data := by
      unfold extAllAny at hext
      simp only [Bool.and_eq_true, decide_eq_true_eq] at hext
      exact ⟨hext.1.1.1, hext.1.1.2, hext.1.2, hext.2⟩
    by_cases hstar : r.edition = "*".data
    · rw [show field22 r.edition = [] from by unfold field22; rw [if_pos hstar]]
      rw [hexts.1, hexts.2.1, hexts.2.2.1, hexts.2.2.2]
      unfold unpackEd unpackF
      rw [if_pos rfl, hstar]
    · rw [show field22 r.edition = r.edition from by unfold field22; rw [if_neg hstar]]
      rw [hexts.1, hexts.2.1, hexts.2.2.1, hexts.2.2.2]
      cases hed : r.edition with
      | nil => exact absurd hed (wfField_spec _ hwe).1
      | cons c t =>
        have hc : ¬ c = '~' := by
          intro hc
          exact (wfField_spec _ hwe).2.2 (hc ▸ (hed ▸ List.mem_cons_self c t))
        simp only [unpackEd]
        rw [if_neg hc]
        unfold unpackF
        rw [if_neg (by simp)]
  · rw [if_neg hext]
    simp only [unpackEd]
    rw [if_true]
    rw [List.splitOn_intercalate _ '~' ?hnp (by simp)]
    case hnp =>
      intro l hl
      simp only [List.mem_cons, List.not_mem_nil, or_false] at hl
      rcases hl with h1|h1|h1|h1|h1 <;> subst h1
      · exact field22_no_tilde _ (wfField_spec _ hwe).2.2
      · exact field22_no_tilde _
          (wfField_spec _ (wf23_field r h _ (by simp [Cpe23.fields]))).2.2
      · exact field22_no_tilde _
          (wfField_spec _ (wf23_field r h _ (by simp [Cpe23.fields]))).2.2
      · exact field22_no_tilde _
          (wfField_spec _ (wf23_field r h _ (by simp [Cpe23.fields]))).2.2
      · exact field22_no_tilde _
          (wfField_spec _ (wf23_field r h _ (by simp [Cpe23.fields]))).2.2
    show some (unpackF (field22 r.edition), unpackF (field22 r.sw_edition),
      unpackF (field22 r.target_sw), unpackF (field22 r.target_hw),
      unpackF (field22 r.other)) = _
    rw [unpackF_field22 _ hwe,
      unpackF_field22 _ (wf23_field r h _ (by simp [Cpe23.fields])),
      unpackF_field22 _ (wf23_field r h _ (by simp [Cpe23.fields])),
      unpackF_field22 _ (wf23_field r h _ (by simp [Cpe23.fields])),
      unpackF_field22 _ (wf23_field r h _ (by simp [Cpe23.fields]))]

theorem cpe22_str_intercalate (r : Cpe23) (c0 : Str) (cs : List Str)
    (htrim : trimTrailing (comps22 r) = c0 :: cs) :
    cpe22_str r = List.intercalate [':'] ("cpe".data :: ('/' :: c0) :: cs) := by
  unfold cpe22_str
  rw [htrim, intercalate_cons_cons]
  have hpre : ("cpe:/".data : Str) = "cpe".data ++ [':'] ++ ['/'] := by decide
  cases cs with
  | nil =>
    rw [intercalate_single, intercalate_single, hpre]
    simp
  | cons b t =>
    rw [intercalate_cons_cons, intercalate_cons_cons, hpre]
    simp [List.append_assoc]

theorem splitOn_cpe22_str (r : Cpe23) (h : wf23 r = true) (c0 : Str)
    (cs : List Str) (htrim : trimTrailing (comps22 r) = c0 :: cs) :
    (cpe22_str r).splitOn ':' = "cpe".data :: ('/' :: c0) :: cs := by
  rw [cpe22_str_intercalate r c0 cs htrim]
  refine List.splitOn_intercalate _ ':' ?_ (by simp)
  intro l hl
  rcases List.mem_cons.mp hl with h1 | hl2
  · subst h1; decide
  rcases List.mem_cons.mp hl2 with h2 | hf
  · subst h2
    intro hc
    rcases List.mem_cons.mp hc with h3 | h4
    · exact absurd h3 (by decide)
    · exact comps22_no_colon r h c0
        (mem_trimTrailing _ _ (by rw [htrim]; exact List.mem_cons_self c0 cs)) h4
  · exact comps22_no_colon r h l
      (mem_trimTrailing _ _ (by rw [htrim]; exact List.mem_cons_of_mem c0 hf))

theorem parse22_cpe22_str (r : Cpe23) (h : wf23 r = true)
    (hv : r.version ≠ "*".data) : parse22 (cpe22_str r) = some r := by
  obtain ⟨c0, cs, htrim⟩ : ∃ c0 cs, trimTrailing (comps22 r) = c0 :: cs := by
    cases hts : trimTrailing (comps22 r) with
    | nil => exact absurd hts (trimTrailing_ne_nil r h hv)
    | cons a b => exact ⟨a, b, rfl⟩
  unfold parse22
  rw [splitOn_cpe22_str r h c0 cs htrim]
  simp only [parse22Parts]
  rw [if_pos ⟨trivial, trivial⟩]
  have hlen7 : (comps22 r).length = 7 := by simp [comps22]
  have hle : (c0 :: cs).length ≤ 7 := by
    rw [← htrim, ← hlen7]
    exact trimTrailing_length_le _
  rw [if_pos hle]
  have hpad : c0 :: (cs ++ List.replicate (7 - (c0 :: cs).length) ([] : Str)) =
      comps22 r := by
    rw [← List.cons_append, ← htrim, ← hlen7]
    exact trimTrailing_pad _
  simp only [List.cons_append]
  rw [hpad]
  simp only [comps22]
  rw [unpackEd_ed22 r h]
  show some (⟨unpackF (field22 r.part), unpackF (field22 r.vendor),
    unpackF (field22 r.product), unpackF (field22 r.version),
    unpackF (field22 r.update), r.edition, unpackF (field22 r.language),
    r.sw_edition, r.target_sw, r.target_hw, r.other⟩ : Cpe23) = some r
  rw [unpackF_field22 _ (wf23_field r h _ (by simp [Cpe23.fields])),
    unpackF_field22 _ (wf23_field r h _ (by simp [Cpe23.fields])),
    unpackF_field22 _ (wf23_field r h _ (by simp [Cpe23.fields])),
    unpackF_field22 _ (wf23_field r h _ (by simp [Cpe23.fields])),
    unpackF_field22 _ (wf23_field r h _ (by simp [Cpe23.fields])),
    unpackF_field22 _ (wf23_field r h _ (by simp [Cpe23.fields]))]

/-- C2: for every CPE v2.3 name whose version attribute is explicit
(not ANY), the conversion is a pure string transform returning the v2.2
URI string with second component False, and converting the produced
v2.2 string back yields the original v2.3 identifier. -/
theorem C2_convert_cpe23_roundtrip (r : Cpe23) (h : wf23 r = true)
    (hv : r.version ≠ "*".data) :
    convert_cpe23_to_cpe22 (cpe23_str r) = some (cpe22_str r, false) ∧
    convert_cpe22_to_cpe23 (cpe22_str r) = some (cpe23_str r) := by
  constructor
  · unfold convert_cpe23_to_cpe22
    rw [parse23_cpe23_str r h]
    simp [hv]
  · unfold convert_cpe22_to_cpe23
    rw [parse22_cpe22_str r h hv]
    rfl

/-- Witness for C2 at the name cpe:2.3:a:microsoft:ie:8.0:*:*:*:*:*:*. -/
theorem C2_convert_cpe23_roundtrip_witness :
    convert_cpe23_to_cpe22 (cpe23_str
        ⟨"a".data, "microsoft".data, "ie".data, "8.0".data, "*".data, "*".data,
         "*".data, "*".data, "*".data, "*".data, "*".data⟩) =
      some (cpe22_str
        ⟨"a".data, "microsoft".data, "ie".data, "8.0".data, "*".data, "*".data,
         "*".data, "*".data, "*".data, "*".data, "*".data⟩, false) ∧
    convert_cpe22_to_cpe23 (cpe22_str
        ⟨"a".data, "microsoft".data, "ie".data, "8.0".data, "*".data, "*".data,
         "*".data, "*".data, "*".data, "*".data, "*".data⟩) =
      some (cpe23_str
        ⟨"a".data, "microsoft".data, "ie".data, "8.0".data, "*".data, "*".data,
         "*".data, "*".data, "*".data, "*".data, "*".data⟩) :=
  C2_convert_cpe23_roundtrip
    ⟨"a".data, "microsoft".data, "ie".data, "8.0".data, "*".data, "*".data,
     "*".data, "*".data, "*".data, "*".data, "*".data⟩
    (by decide) (by decide)

end CpeRoundTrip

section ClaimC4

/-- C4: when the CPE-to-CVE list file does not exist, constructing the
CPELookup terminates the script immediately through error_and_exit with
an explanatory message that contains the ++create-list hint and the
filename; no recovery or retry happens. -/
theorem C4_missing_list_file (filename : Str) :
    ∃ msg, CPELookup.init filename none = Except.error (Err.exitWith msg) ∧
      "++create-list".data <:+: msg ∧ filename <:+: msg := by
  refine ⟨_, rfl, ?_, ?_⟩
  · have hmid : "++create-list".data <:+:
        "\". Maybe you need to create a list first. Run with argument \"++create-list +f ".data := by
      decide
    refine hmid.trans ?_
    exact ⟨"There is no file \"".data ++ filename,
      filename ++ "\", to create a new list, or pass the correct location of an existing list.".data,
      by simp [List.append_assoc]⟩
  · exact ⟨"There is no file \"".data,
      "\". Maybe you need to create a list first. Run with argument \"++create-list +f ".data ++
        filename ++
        "\", to create a new list, or pass the correct location of an existing list.".data,
      by simp [List.append_assoc]⟩

end ClaimC4

section ClaimC3

/-- C3: malformed input terminates the script and is never recovered: a
JSON parse failure propagates out of main as a fatal error carrying the
parser's message; a host tuple whose index-3 field is None makes
parse_json print "The JSON format is not correct." and exit; and an
entry that fails stops the processing of every later entry. -/
theorem C3_malformed_json_terminates {σ : Type} (pyFloat : Str → σ)
    (scoreStr : σ → Str) (getInfoIds : Str → List Str)
    (respond : GmpCall → Elem) (date_time the_time list_filename : Str)
    (listContent : List Row) :
    (∀ m : Str, main_json_branch pyFloat scoreStr getInfoIds respond
        date_time the_time list_filename (some listContent)
        (Except.error m) =
      Except.error (Err.jsonDecodeError m)) ∧
    (∀ (st : PJState σ) (entry : PyVal),
      pyValIndex entry 3 = Except.ok PyVal.none →
      processEntry pyFloat scoreStr getInfoIds date_time st entry =
        Except.error (Err.exitWith "The JSON format is not correct.".data)) ∧
    (∀ (st : PJState σ) (entry : PyVal) (rest : List PyVal) (e : Err),
      processEntry pyFloat scoreStr getInfoIds date_time st entry =
        Except.error e →
      processEntries pyFloat scoreStr getInfoIds date_time st
        (entry :: rest) = Except.error e) := by
  refine ⟨?_, ?_, ?_⟩
  · intro m
    simp only [main_json_branch]
    rw [show CPELookup.init list_filename (some listContent) =
      Except.ok { table := listContent, pos := 0 } from rfl, exceptBind_ok]
    rw [exceptBind_error]
  · intro st entry h3
    simp only [processEntry]
    rw [h3, exceptBind_ok]
    rfl
  · intro st entry rest e he
    simp only [processEntries, List.foldlM_cons]
    rw [he, exceptBind_error]

end ClaimC3

/-- Witness for C3 at a malformed document and a host tuple whose
index-3 field is None. -/
theorem C3_malformed_json_terminates_witness :
    main_json_branch (σ := Str) (fun s => s) (fun s => s) (fun _ => [])
        (fun _ => Elem.mk "r".data [] none []) "d".data "t".data "f".data
        (some []) (Except.error "bad".data) =
      Except.error (Err.jsonDecodeError "bad".data) ∧
    processEntry (σ := Str) (fun s => s) (fun s => s) (fun _ => []) "d".data
        { lookup := { table := [], pos := 0 }, uuid := 0,
          report := { results := [], hosts := [] } }
        (PyVal.list [PyVal.num 0, PyVal.num 0, PyVal.num 0, PyVal.none]) =
      Except.error (Err.exitWith "The JSON format is not correct.".data) ∧
    processEntries (σ := Str) (fun s => s) (fun s => s) (fun _ => []) "d".data
        { lookup := { table := [], pos := 0 }, uuid := 0,
          report := { results := [], hosts := [] } }
        (PyVal.list [PyVal.num 0, PyVal.num 0, PyVal.num 0, PyVal.none] ::
          [PyVal.num 5]) =
      Except.error (Err.exitWith "The JSON format is not correct.".data) := by
  have h := C3_malformed_json_terminates (σ := Str) (fun s => s) (fun s => s)
    (fun _ => []) (fun _ => Elem.mk "r".data [] none []) "d".data "t".data
    "f".data []
  exact ⟨h.1 "bad".data, h.2.1 _ _ (by rfl), h.2.2 _ _ _ _ (h.2.1 _ _ (by rfl))⟩

section ClaimC5

/-- C5: the script reads its host data from the first element's results
field of the loaded document, and the processing of a host tuple
depends on the tuple only through its positional fields at indices
0 (name), 1 (ips), 2 (ip range), 3 (OS), 4 (OS CPE) and 7 (CPE list):
two tuples whose subscripting agrees at exactly those indices are
processed identically. -/
theorem C5_positional_schema {σ : Type} (pyFloat : Str → σ)
    (scoreStr : σ → Str) (getInfoIds : Str → List Str) (date_time : Str) :
    (∀ (fields : List (Str × PyVal)) (rest : List PyVal) (kv : Str × PyVal),
      fields.find? (fun p => decide (p.1 = "results".data)) = some kv →
      loadResults (PyVal.list (PyVal.obj fields :: rest)) = Except.ok kv.2) ∧
    (∀ (st : PJState σ) (entry entry2 : PyVal),
      (∀ i ∈ [0, 1, 2, 3, 4, 7], pyValIndex entry i = pyValIndex entry2 i) →
      processEntry pyFloat scoreStr getInfoIds date_time st entry =
        processEntry pyFloat scoreStr getInfoIds date_time st entry2) := by
  constructor
  · intro fields rest kv hfind
    simp only [loadResults, pyValIndex, pyIndex, List.getElem?_cons_zero,
      exceptBind_ok]
    simp only [pyField, hfind]
  · intro st entry entry2 h
    simp only [processEntry]
    rw [h 0 (by simp), h 1 (by simp), h 2 (by simp), h 3 (by simp),
      h 4 (by simp), h 7 (by simp)]

end ClaimC5

/-- Witness for C5: a concrete document and two host tuples that agree
on indices 0-4 and 7 but differ at indices 5 and 6. -/
theorem C5_positional_schema_witness :
    loadResults (PyVal.list [PyVal.obj [("results".data, PyVal.list [])]]) =
      Except.ok (PyVal.list []) ∧
    processEntry (σ := Str) (fun s => s) (fun s => s) (fun _ => []) "d".data
        { lookup := { table := [], pos := 0 }, uuid := 0,
          report := { results := [], hosts := [] } }
        (PyVal.list [PyVal.num 1, PyVal.num 2, PyVal.num 3, PyVal.num 4,
          PyVal.num 5, PyVal.num 6, PyVal.num 7, PyVal.num 8]) =
      processEntry (σ := Str) (fun s => s) (fun s => s) (fun _ => []) "d".data
        { lookup := { table := [], pos := 0 }, uuid := 0,
          report := { results := [], hosts := [] } }
        (PyVal.list [PyVal.num 1, PyVal.num 2, PyVal.num 3, PyVal.num 4,
          PyVal.num 5, PyVal.num 99, PyVal.num 98, PyVal.num 8]) := by
  have h := C5_positional_schema (σ := Str) (fun s => s) (fun s => s)
    (fun _ => []) "d".data
  refine ⟨h.1 [("results".data, PyVal.list [])] []
    ("results".data, PyVal.list []) (by rfl), h.2 _ _ _ ?_⟩
  intro i hi
  fin_cases hi <;> rfl

section ClaimC6

/-- C6: a successful send_report performs exactly two external-client
calls in order: create_container_task with the timestamped
CVE_Scan_Report task name, then import_report with the serialized
report and the task id extracted from the first response; the returned
value is the id extracted from the import_report response. -/
theorem C6_send_report_two_calls (finished : Elem) (the_time : Str)
    (respond : GmpCall → Elem) (calls : List GmpCall) (rid : Str)
    (h : Report.send_report finished the_time respond =
      Except.ok (calls, rid)) :
    ∃ task_id,
      (Elem.idAttrs (respond (GmpCall.create_container_task
          ("CVE_Scan_Report_".data ++ the_time)
          "Created with gvm-tools.".data)))[0]? = some task_id ∧
      calls = [GmpCall.create_container_task
          ("CVE_Scan_Report_".data ++ the_time)
          "Created with gvm-tools.".data,
        GmpCall.import_report (Elem.tostring finished) task_id true] ∧
      (Elem.idAttrs (respond (GmpCall.import_report (Elem.tostring finished)
          task_id true)))[0]? = some rid := by
  simp only [Report.send_report, pyIndex] at h
  cases h1 : (Elem.idAttrs (respond (GmpCall.create_container_task
      ("CVE_Scan_Report_".data ++ the_time)
      "Created with gvm-tools.".data)))[0]? with
  | none =>
    rw [h1] at h
    simp only [exceptBind_error] at h
    exact Except.noConfusion h
  | some tid =>
    rw [h1] at h
    simp only [exceptBind_ok] at h
    cases h2 : (Elem.idAttrs (respond (GmpCall.import_report
        (Elem.tostring finished) tid true)))[0]? with
    | none =>
      rw [h2] at h
      simp only [exceptBind_error] at h
      exact Except.noConfusion h
    | some rid2 =>
      rw [h2] at h
      simp only [exceptBind_ok, pure, Except.pure, Except.ok.injEq,
        Prod.mk.injEq] at h
      exact ⟨tid, rfl, h.1.symm, h.2 ▸ h2⟩

end ClaimC6

/-- Witness for C6 with a client whose responses carry an id. -/
theorem C6_send_report_two_calls_witness :
    ∃ task_id,
      (Elem.idAttrs ((fun _ : GmpCall =>
          Elem.mk "r".data [("id".data, "abc".data)] none [])
          (GmpCall.create_container_task
            ("CVE_Scan_Report_".data ++ "now".data)
            "Created with gvm-tools.".data)))[0]? = some task_id ∧
      [GmpCall.create_container_task
          ("CVE_Scan_Report_".data ++ "now".data)
          "Created with gvm-tools.".data,
        GmpCall.import_report
          (Elem.tostring (Elem.mk "report".data [] none [])) task_id true] =
        [GmpCall.create_container_task
          ("CVE_Scan_Report_".data ++ "now".data)
          "Created with gvm-tools.".data,
        GmpCall.import_report
          (Elem.tostring (Elem.mk "report".data [] none [])) task_id true] ∧
      (Elem.idAttrs ((fun _ : GmpCall =>
          Elem.mk "r".data [("id".data, "abc".data)] none [])
          (GmpCall.import_report
            (Elem.tostring (Elem.mk "report".data [] none []))
            task_id true)))[0]? = some "abc".data := by
  have h := C6_send_report_two_calls (Elem.mk "report".data [] none [])
    "now".data
    (fun _ => Elem.mk "r".data [("id".data, "abc".data)] none [])
    [GmpCall.create_container_task ("CVE_Scan_Report_".data ++ "now".data)
        "Created with gvm-tools.".data,
      GmpCall.import_report (Elem.tostring (Elem.mk "report".data [] none []))
        "abc".data true]
    "abc".data (by rfl)
  obtain ⟨tid, h1, h2, h3⟩ := h
  exact ⟨tid, h1, rfl, by rw [show tid = "abc".data from Option.some_injective _ (by rw [← h1]; rfl)]; exact h3⟩

section ClaimC7

/-- C7: the report document built by finish_report meets the stated
format requirements: a report element carrying id, format_id, extension
and content_type attributes, containing an owner element, a name
element and an inner report element with the same id whose children
comprise a ports element, the results element and one host element per
added host. -/
theorem C7_finish_report_schema (rs : ReportState) (uuid : Nat)
    (hh : ∀ h ∈ rs.hosts, Elem.tag h = "host".data) :
    reportSchemaSpec (Report.finish_report rs uuid).1 rs.hosts.length := by
  unfold Report.finish_report reportSchemaSpec
  refine ⟨rfl, rfl, rfl, rfl, rfl, ?_, ?_, ?_⟩
  · exact ⟨Elem.mk "owner".data [] none [Elem.mk "name".data [] (some []) []],
      List.mem_cons_self _ _, rfl⟩
  · exact ⟨Elem.mk "name".data [] (some "Report created from JSON-File".data) [],
      List.mem_cons_of_mem _ (List.mem_cons_self _ _), rfl⟩
  · refine ⟨Elem.mk "report".data [("id".data, (generate_uuid uuid).1)] none
      ([Elem.mk "ports".data
          [("start".data, "1".data), ("max".data, "-1".data)] none [],
        Elem.mk "results".data
          [("start".data, "1".data), ("max".data, "-1".data)] none
          rs.results] ++ rs.hosts),
      List.mem_cons_of_mem _ (List.mem_cons_of_mem _ (List.mem_cons_self _ _)),
      rfl, rfl, ?_, ?_, ?_⟩
    · exact ⟨Elem.mk "ports".data
        [("start".data, "1".data), ("max".data, "-1".data)] none [],
        List.mem_cons_self _ _, rfl⟩
    · exact ⟨Elem.mk "results".data
        [("start".data, "1".data), ("max".data, "-1".data)] none rs.results,
        List.mem_cons_of_mem _ (List.mem_cons_self _ _), rfl⟩
    · show List.countP (fun c => decide (Elem.tag c = "host".data))
        ([Elem.mk "ports".data
            [("start".data, "1".data), ("max".data, "-1".data)] none [],
          Elem.mk "results".data
            [("start".data, "1".data), ("max".data, "-1".data)] none
            rs.results] ++ rs.hosts) = rs.hosts.length
      rw [List.countP_append]
      have h1 : List.countP (fun c => decide (Elem.tag c = "host".data))
          [Elem.mk "ports".data
            [("start".data, "1".data), ("max".data, "-1".data)] none [],
           Elem.mk "results".data
            [("start".data, "1".data), ("max".data, "-1".data)] none
            rs.results] = 0 := rfl
      have h2 : List.countP (fun c => decide (Elem.tag c = "host".data))
          rs.hosts = rs.hosts.length := by
        rw [List.countP_eq_length]
        intro a ha
        simp [hh a ha]
      rw [h1, h2]
      omega

end ClaimC7

/-- Witness for C7 at the empty report. -/
theorem C7_finish_report_schema_witness :
    reportSchemaSpec
      (Report.finish_report { results := [], hosts := [] } 0).1 0 :=
  C7_finish_report_schema { results := [], hosts := [] } 0
    (by intro h hmem; simp at hmem)

section C10Lemmas

variable {σ : Type}

theorem foldl_id_of_step {α β : Type} (f : β → α → β) (l : List α) (acc : β)
    (h : ∀ x ∈ l, ∀ a, f a x = a) : l.foldl f acc = acc := by
  induction l generalizing acc with
  | nil => rfl
  | cons x t ih =>
    rw [List.foldl_cons, h x (List.mem_cons_self x t)]
    exact ih acc (fun y hy a => h y (List.mem_cons_of_mem _ hy) a)

theorem add_results_no_cves (scoreStr : σ → Str) (rs : ReportState)
    (ip hostname : Str) (vulns : Dict (Dict σ)) (cpeo os dt : Str)
    (uuid : Nat) (hempty : ∀ p ∈ vulns, p.2 = ([] : Dict σ)) :
    Report.add_results scoreStr rs ip hostname vulns cpeo os dt uuid =
      ({ results := rs.results,
         hosts := rs.hosts ++ [baseHostElem ip hostname os cpeo] },
       uuid + 1) := by
  simp only [Report.add_results]
  rw [foldl_id_of_step _ vulns _ ?hstep]
  · simp [generate_uuid, baseHostElem]
  case hstep =>
    intro p hp a
    rw [hempty p hp]
    rfl

theorem nodupKeys_initVulns (cpes : List Str) (d : Dict (Dict σ))
    (h : nodupKeys d) :
    nodupKeys (cpes.foldl (fun d cpe => dictInsert cpe [] d) d) := by
  induction cpes generalizing d with
  | nil => exact h
  | cons a t ih => exact ih _ (nodupKeys_dictInsert _ _ _ h)

theorem nodupKeys_cveRowStepP (pyFloat : Str → σ) (cpes : List Str)
    (v : Dict (Dict σ)) (row : Row) (h : nodupKeys v) :
    nodupKeys (cveRowStepP pyFloat cpes v row) := by
  unfold cveRowStepP
  induction cpes generalizing v with
  | nil => exact h
  | cons a t ih =>
    rw [List.foldl_cons]
    refine ih _ ?_
    by_cases hm : rowMatches a row = true
    · rw [if_pos hm]
      exact nodupKeys_dictUpdate _ _ _ h
    · rw [if_neg hm]
      exact h

theorem nodupKeys_get_cvesP (pyFloat : Str → σ) (table : List Row)
    (cpes : List Str) : nodupKeys (get_cvesP pyFloat table cpes) := by
  unfold get_cvesP
  have hrows : ∀ (v : Dict (Dict σ)), nodupKeys v →
      nodupKeys (table.foldl (cveRowStepP pyFloat cpes) v) := by
    induction table with
    | nil => exact fun v h => h
    | cons r t ih =>
      intro v h
      rw [List.foldl_cons]
      exact ih _ (nodupKeys_cveRowStepP pyFloat cpes v r h)
  exact hrows _ (nodupKeys_initVulns cpes [] nodupKeys_nil)

theorem dictGet_of_mem_nodup {α : Type} (d : Dict α) (p : Str × α)
    (h : nodupKeys d) (hp : p ∈ d) : dictGet p.1 d = some p.2 := by
  induction d with
  | nil => simp at hp
  | cons q t ih =>
    unfold nodupKeys at h
    simp only [List.map_cons, List.nodup_cons] at h
    rcases List.mem_cons.mp hp with h1 | h1
    · subst h1
      rw [dictGet_cons, if_pos rfl]
    · rw [dictGet_cons]
      by_cases hq : q.1 = p.1
      · exact absurd (List.mem_map.mpr ⟨p, h1, hq.symm⟩) h.1
      · rw [if_neg hq]
        exact ih h.2 h1

theorem innerScan_eq_of_no_match (pyFloat : Str → σ) (c : Str)
    (table : List Row) (h : ∀ r ∈ table, rowMatches c r = false)
    (d : Dict σ) : innerScan pyFloat c table d = d := by
  induction table generalizing d with
  | nil => rfl
  | cons r t ih =>
    unfold innerScan at ih ⊢
    rw [List.foldl_cons, if_neg (by rw [h r (List.mem_cons_self r t)]; simp)]
    exact ih (fun r hr => h r (List.mem_cons_of_mem _ hr)) d

theorem get_cvesP_values_nil (pyFloat : Str → σ) (table : List Row)
    (cpes : List Str)
    (h : ∀ c ∈ cpes, ∀ r ∈ table, rowMatches c r = false) :
    ∀ p ∈ get_cvesP pyFloat table cpes, p.2 = ([] : Dict σ) := by
  intro p hp
  have hget := dictGet_of_mem_nodup _ p (nodupKeys_get_cvesP pyFloat table cpes) hp
  rw [dictGet_get_cvesP] at hget
  by_cases hc : p.1 ∈ cpes
  · rw [if_pos hc, innerScan_eq_of_no_match pyFloat p.1 table (h p.1 hc) []] at hget
    exact (Option.some_injective _ hget).symm
  · rw [if_neg hc] at hget
    exact Option.noConfusion hget

end C10Lemmas

theorem foldlM_hosts_no_cves {σ : Type} (scoreStr : σ → Str)
    (nameS osS os_cpe date_time : Str) (vulns : Dict (Dict σ))
    (hempty : ∀ p ∈ vulns, p.2 = ([] : Dict σ))
    (ipStrs : List Str) (s0 : PJState σ) :
    (ipStrs.map PyVal.pstr).foldlM (fun s ip => do
        let ipS ← pyStr ip
        let nameS2 ← pyStr (PyVal.pstr nameS)
        let osS2 ← pyStr (PyVal.pstr osS)
        let ru := Report.add_results scoreStr s.report ipS nameS2 vulns
          os_cpe osS2 date_time s.uuid
        pure { s with uuid := ru.2, report := ru.1 }) s0 =
      Except.ok (PJState.mk s0.lookup (s0.uuid + ipStrs.length)
        (ReportState.mk s0.report.results
          (s0.report.hosts ++
            ipStrs.map (fun ip => baseHostElem ip nameS osS os_cpe)))) := by
  induction ipStrs generalizing s0 with
  | nil =>
    simp only [List.length_nil, List.map_nil, List.append_nil, Nat.add_zero,
      List.foldlM_nil]
    rfl
  | cons ip t ih =>
    simp only [List.map_cons, List.foldlM_cons]
    have hstep : (do
        let ipS ← pyStr (PyVal.pstr ip)
        let nameS2 ← pyStr (PyVal.pstr nameS)
        let osS2 ← pyStr (PyVal.pstr osS)
        let ru := Report.add_results scoreStr s0.report ipS nameS2 vulns
          os_cpe osS2 date_time s0.uuid
        pure { s0 with uuid := ru.2, report := ru.1 } :
          Except Err (PJState σ)) =
        Except.ok (PJState.mk s0.lookup (s0.uuid + 1)
          (ReportState.mk s0.report.results
            (s0.report.hosts ++ [baseHostElem ip nameS osS os_cpe]))) := by
      rw [show pyStr (PyVal.pstr ip) = Except.ok ip from rfl, exceptBind_ok,
        show pyStr (PyVal.pstr nameS) = Except.ok nameS from rfl, exceptBind_ok,
        show pyStr (PyVal.pstr osS) = Except.ok osS from rfl, exceptBind_ok,
        add_results_no_cves scoreStr s0.report ip nameS vulns os_cpe osS
          date_time s0.uuid hempty]
      rfl
    rw [hstep, exceptBind_ok, ih]
    simp only [Except.ok.injEq, PJState.mk.injEq, ReportState.mk.injEq,
      List.map_cons, List.length_cons, List.append_assoc,
      List.singleton_append, true_and, and_true]
    omega

section ClaimC10

/-- C10: parse_json adds a host to the report only when the host's
resolved CPE list is non-empty.  First part: an entry resolving to no
CPEs leaves the report exactly as it was, so the host is omitted
entirely (only the CSV file is rewound).  Second part: an entry with
CPEs none of which matches any CSV row still contributes one host
element per IP, carrying the hostname, best_os_txt and best_os_cpe
details, but contributes no result elements. -/
theorem C10_host_inclusion {σ : Type} (pyFloat : Str → σ)
    (scoreStr : σ → Str) (getInfoIds : Str → List Str) (date_time : Str)
    (st : PJState σ) (nameS osS oscpe os_cpe22 : Str) (anyB : Bool)
    (ipsV v2 v5 v6 e7 : PyVal)
    (hconv : convert_cpe23_to_cpe22 oscpe = some (os_cpe22, anyB)) :
    (resolveCpes getInfoIds e7 = Except.ok [] →
      processEntry pyFloat scoreStr getInfoIds date_time st
        (PyVal.list [PyVal.pstr nameS, ipsV, v2, PyVal.pstr osS,
          PyVal.pstr oscpe, v5, v6, e7]) =
      Except.ok { st with lookup := { table := st.lookup.table, pos := 0 } }) ∧
    (∀ (cpes ipStrs : List Str),
      resolveCpes getInfoIds e7 = Except.ok cpes →
      cpes ≠ [] →
      (∀ r ∈ st.lookup.table, 3 ≤ r.length) →
      (∀ c ∈ cpes, ∀ r ∈ st.lookup.table.drop st.lookup.pos,
        rowMatches c r = false) →
      processEntry pyFloat scoreStr getInfoIds date_time st
        (PyVal.list [PyVal.pstr nameS, PyVal.list (ipStrs.map PyVal.pstr),
          v2, PyVal.pstr osS, PyVal.pstr oscpe, v5, v6, e7]) =
      Except.ok (PJState.mk { table := st.lookup.table, pos := 0 }
        (st.uuid + ipStrs.length)
        (ReportState.mk st.report.results
          (st.report.hosts ++
            ipStrs.map (fun ip => baseHostElem ip nameS osS os_cpe22))))) := by
  constructor
  · intro hres
    simp only [processEntry]
    rw [show pyValIndex (PyVal.list [PyVal.pstr nameS, ipsV, v2,
        PyVal.pstr osS, PyVal.pstr oscpe, v5, v6, e7]) 3 =
        Except.ok (PyVal.pstr osS) from rfl, exceptBind_ok]
    rw [if_neg (by simp [PyVal.isNone])]
    rw [show pyValIndex (PyVal.list [PyVal.pstr nameS, ipsV, v2,
        PyVal.pstr osS, PyVal.pstr oscpe, v5, v6, e7]) 0 =
        Except.ok (PyVal.pstr nameS) from rfl, exceptBind_ok,
      show pyValIndex (PyVal.list [PyVal.pstr nameS, ipsV, v2,
        PyVal.pstr osS, PyVal.pstr oscpe, v5, v6, e7]) 1 =
        Except.ok ipsV from rfl, exceptBind_ok,
      show pyValIndex (PyVal.list [PyVal.pstr nameS, ipsV, v2,
        PyVal.pstr osS, PyVal.pstr oscpe, v5, v6, e7]) 2 =
        Except.ok v2 from rfl, exceptBind_ok,
      show pyValIndex (PyVal.list [PyVal.pstr nameS, ipsV, v2,
        PyVal.pstr osS, PyVal.pstr oscpe, v5, v6, e7]) 4 =
        Except.ok (PyVal.pstr oscpe) from rfl, exceptBind_ok,
      show pyStr (PyVal.pstr oscpe) = Except.ok oscpe from rfl, exceptBind_ok]
    simp only [hconv, exceptBind_ok]
    rw [show pyValIndex (PyVal.list [PyVal.pstr nameS, ipsV, v2,
        PyVal.pstr osS, PyVal.pstr oscpe, v5, v6, e7]) 7 =
        Except.ok e7 from rfl, exceptBind_ok,
      hres, exceptBind_ok, get_cves_nil_cpes, exceptBind_ok]
    rfl
  · intro cpes ipStrs hres hne hlen hnomatch
    simp only [processEntry]
    rw [show pyValIndex (PyVal.list [PyVal.pstr nameS,
        PyVal.list (ipStrs.map PyVal.pstr), v2, PyVal.pstr osS,
        PyVal.pstr oscpe, v5, v6, e7]) 3 =
        Except.ok (PyVal.pstr osS) from rfl, exceptBind_ok]
    rw [if_neg (by simp [PyVal.isNone])]
    rw [show pyValIndex (PyVal.list [PyVal.pstr nameS,
        PyVal.list (ipStrs.map PyVal.pstr), v2, PyVal.pstr osS,
        PyVal.pstr oscpe, v5, v6, e7]) 0 =
        Except.ok (PyVal.pstr nameS) from rfl, exceptBind_ok,
      show pyValIndex (PyVal.list [PyVal.pstr nameS,
        PyVal.list (ipStrs.map PyVal.pstr), v2, PyVal.pstr osS,
        PyVal.pstr oscpe, v5, v6, e7]) 1 =
        Except.ok (PyVal.list (ipStrs.map PyVal.pstr)) from rfl, exceptBind_ok,
      show pyValIndex (PyVal.list [PyVal.pstr nameS,
        PyVal.list (ipStrs.map PyVal.pstr), v2, PyVal.pstr osS,
        PyVal.pstr oscpe, v5, v6, e7]) 2 =
        Except.ok v2 from rfl, exceptBind_ok,
      show pyValIndex (PyVal.list [PyVal.pstr nameS,
        PyVal.list (ipStrs.map PyVal.pstr), v2, PyVal.pstr osS,
        PyVal.pstr oscpe, v5, v6, e7]) 4 =
        Except.ok (PyVal.pstr oscpe) from rfl, exceptBind_ok,
      show pyStr (PyVal.pstr oscpe) = Except.ok oscpe from rfl, exceptBind_ok]
    simp only [hconv, exceptBind_ok]
    rw [show pyValIndex (PyVal.list [PyVal.pstr nameS,
        PyVal.list (ipStrs.map PyVal.pstr), v2, PyVal.pstr osS,
        PyVal.pstr oscpe, v5, v6, e7]) 7 =
        Except.ok e7 from rfl, exceptBind_ok,
      hres, exceptBind_ok,
      get_cves_eq_ok pyFloat st.lookup cpes hlen, exceptBind_ok]
    rw [if_neg ?hnotempty]
    case hnotempty =>
      intro hempty
      exact get_cvesP_ne_nil pyFloat (st.lookup.table.drop st.lookup.pos)
        cpes hne (List.isEmpty_iff.mp hempty)
    rw [show pyIps (PyVal.list (ipStrs.map PyVal.pstr)) =
      Except.ok (ipStrs.map PyVal.pstr) from rfl, exceptBind_ok]
    rw [foldlM_hosts_no_cves scoreStr nameS osS os_cpe22 date_time
      (get_cvesP pyFloat (st.lookup.table.drop st.lookup.pos) cpes)
      (get_cvesP_values_nil pyFloat _ cpes hnomatch) ipStrs
      { st with lookup := { table := st.lookup.table, pos := 0 } }]

end ClaimC10

/-- Witness for C10: a host with no CPEs is omitted; a host whose only
CPE matches no CSV row yields one host element for its IP and no
results. -/
theorem C10_host_inclusion_witness :
    (processEntry (σ := Str) (fun s => s) (fun s => s) (fun _ => []) "d".data
        { lookup := { table := [["x".data, "Y".data, "1".data]], pos := 0 },
          uuid := 0, report := { results := [], hosts := [] } }
        (PyVal.list [PyVal.pstr "h1".data, PyVal.pstr "10.0.0.1".data,
          PyVal.none, PyVal.pstr "linux".data,
          PyVal.pstr "cpe:2.3:o:linux:linux_kernel:5.0:*:*:*:*:*:*:*".data,
          PyVal.none, PyVal.none, PyVal.none]) =
      Except.ok
        { lookup := { table := [["x".data, "Y".data, "1".data]], pos := 0 },
          uuid := 0, report := { results := [], hosts := [] } }) ∧
    (processEntry (σ := Str) (fun s => s) (fun s => s) (fun _ => []) "d".data
        { lookup := { table := [["x".data, "Y".data, "1".data]], pos := 0 },
          uuid := 0, report := { results := [], hosts := [] } }
        (PyVal.list [PyVal.pstr "h1".data,
          PyVal.list (["10.0.0.1".data].map PyVal.pstr), PyVal.none,
          PyVal.pstr "linux".data,
          PyVal.pstr "cpe:2.3:o:linux:linux_kernel:5.0:*:*:*:*:*:*:*".data,
          PyVal.none, PyVal.none,
          PyVal.pstr "cpe:2.3:a:foo:bar:1.0:*:*:*:*:*:*:*".data]) =
      Except.ok (PJState.mk
        { table := [["x".data, "Y".data, "1".data]], pos := 0 }
        (0 + ["10.0.0.1".data].length)
        (ReportState.mk []
          ([] ++ ["10.0.0.1".data].map (fun ip =>
            baseHostElem ip "h1".data "linux".data
              "cpe:/o:linux:linux_kernel:5.0".data))))) := by
  have hA := (C10_host_inclusion (σ := Str) (fun s => s) (fun s => s)
    (fun _ => []) "d".data
    { lookup := { table := [["x".data, "Y".data, "1".data]], pos := 0 },
      uuid := 0, report := { results := [], hosts := [] } }
    "h1".data "linux".data
    "cpe:2.3:o:linux:linux_kernel:5.0:*:*:*:*:*:*:*".data
    "cpe:/o:linux:linux_kernel:5.0".data false
    (PyVal.pstr "10.0.0.1".data) PyVal.none PyVal.none PyVal.none PyVal.none
    (by rfl)).1 (by rfl)
  have hB := (C10_host_inclusion (σ := Str) (fun s => s) (fun s => s)
    (fun _ => []) "d".data
    { lookup := { table := [["x".data, "Y".data, "1".data]], pos := 0 },
      uuid := 0, report := { results := [], hosts := [] } }
    "h1".data "linux".data
    "cpe:2.3:o:linux:linux_kernel:5.0:*:*:*:*:*:*:*".data
    "cpe:/o:linux:linux_kernel:5.0".data false
    PyVal.none PyVal.none PyVal.none PyVal.none
    (PyVal.pstr "cpe:2.3:a:foo:bar:1.0:*:*:*:*:*:*:*".data)
    (by rfl)).2
    ["cpe:/a:foo:bar:1.0".data] ["10.0.0.1".data]
    (by rfl) (by decide) (by decide) (by decide)
  exact ⟨hA, hB⟩
